import Mathlib

/-!
Verification of the mesh-metrics daemon (cordelster/mesh-metrics).

This file shallowly embeds the parts of the repository that the spec's
claims are about:

* `PrometheusFormatter.format_prometheus_metrics` and
  `PrometheusFormatter.sanitize_filename` (src/lib/prometheus_manager.py),
* `MeshtasticTelemetryDaemon.format_prometheus_output`,
  `write_output_atomic`, `update_stats`, `write_output`, `poll_devices`
  (scripts/meshmetricsd.py),
* `PrometheusPushGateway.push_metrics` (src/lib/prometheus_manager.py) and
  `PrometheusExporter.push_metrics` (scripts/meshmetricsd.py),
* the encrypted-roster pipeline `decrypt_device_file`
  (scripts/meshmetricsd.py) together with a spec-modelled encryptor.

Python dictionaries are embedded as association lists (Python dicts
iterate in insertion order), Python strings as Lean `String`s, and
telemetry values as the inductive `PyVal` below.  Effectful library
calls (HTTP, the filesystem) are embedded as explicit oracles / state
passing.
-/

namespace MeshMetrics

/-- Telemetry values as they reach the renderer: Python ints, floats and
strings.  A float is carried together with the text Python's string
interpolation would produce for it, so rendering is exact without
modelling IEEE arithmetic (no arithmetic is ever performed on values). -/
inductive PyVal where
  | vint (n : Int)
  | vfloat (text : String)
  | vstr (s : String)
deriving DecidableEq, Repr

/-- Text form of a value, as produced by Python string interpolation. -/
def pyValStr : PyVal → String
  | .vint n => toString n
  | .vfloat t => t
  | .vstr s => s

/-- ASCII digit test, the character class `[0-9]` of the source regex. -/
def isAsciiDigit (c : Char) : Bool := '0' ≤ c && c ≤ '9'

/-- Body of the numeric regex after the optional sign:
`[0-9]+\.?[0-9]*` anchored to the end of the string. -/
def numericBody (cs : List Char) : Bool :=
  let ds := cs.takeWhile isAsciiDigit
  let rest := cs.dropWhile isAsciiDigit
  decide (ds ≠ []) &&
    (match rest with
     | [] => true
     | c :: tail => c == '.' && tail.all isAsciiDigit)

/-- Core of the source regex between the anchors:
`[+-]?[0-9]+\.?[0-9]*` matched against an entire character sequence. -/
def matchesNumericCore : List Char → Bool
  | [] => false
  | c :: rest =>
    if c == '+' || c == '-' then numericBody rest else numericBody (c :: rest)

/-- The numeric test `re.match(r'^[+-]?[0-9]+\.?[0-9]*$', str(value))`
used by both renderers.  Without `re.MULTILINE`, Python's `$` matches
at the end of the string and also just before a newline that ends the
string, so the regex accepts the core form itself and the core form
followed by one final newline (none of the regex's character classes
can consume the newline). -/
def matchesNumericRegex (s : String) : Bool :=
  matchesNumericCore s.data ||
    (match s.data.getLast? with
     | some c => c == '\n' && matchesNumericCore s.data.dropLast
     | none => false)

/-- The renderers' numeric dispatch:
`isinstance(value, (int, float)) or (isinstance(value, str) and re.match(...))`. -/
def pyIsNumericValue : PyVal → Bool
  | .vint _ => true
  | .vfloat _ => true
  | .vstr s => matchesNumericRegex s

/-- Static device metadata, one row of the device roster
(`parse_device_file` always populates all five keys, absent CSV columns
become the empty string, which is falsy in Python). -/
structure DeviceInfo where
  node_id : String := ""
  contact_name : String := ""
  location : String := ""
  latitude : String := ""
  longitude : String := ""
deriving DecidableEq, Repr

/-- Python's `s.replace('!', '')` (used with the `!` sigil). -/
def pyRemoveBang (s : String) : String := ⟨s.data.filter (fun c => c ≠ '!')⟩

/-- One rendered metric line `name{labels} value`.  (Braces are written
with their ASCII escapes throughout this file.) -/
def promLine (metric_name labels value : String) : String :=
  metric_name ++ "\x7b" ++ labels ++ "\x7d " ++ value

/-- Configuration of `PrometheusFormatter` (prometheus_manager.py lines
23-32): the node-id label format and the version string, with the
source's defaults. -/
structure FormatterCfg where
  node_id_format : String := "default"
  version : String := "MTM-v0.98-Daemon"

/-- The formatter's `format_node_id_for_metric` (lines 34-38): `'clean'`
removes the `!` sigil, anything else keeps the id unchanged. -/
def format_node_id_for_metric (cfg : FormatterCfg) (node_id : String) : String :=
  if cfg.node_id_format == "clean" then pyRemoveBang node_id else node_id

/-- The formatter's `sanitize_filename` (lines 40-42):
`node_id.replace('!', '').replace('/', '_').replace('\\', '_')`. -/
def sanitize_filename (node_id : String) : String :=
  ⟨(s_data node_id).map (fun c => if c = '/' then '_' else if c = '\\' then '_' else c)⟩
where
  /-- the chars remaining after the `replace('!', '')` step -/
  s_data (s : String) : List Char := s.data.filter (fun c => c ≠ '!')

/-- Metric name for a reading key:
`f"meshtastic_{key.lower().replace(' ', '_')}"`.  Lowercasing is
embedded per character (the reading keys produced by the daemon are
ASCII). -/
def metricNameFor (key : String) : String :=
  "meshtastic_" ++ ⟨key.data.map (fun c => if c = ' ' then '_' else c.toLower)⟩

/-- One line of the telemetry loop of `format_prometheus_metrics`
(lines 52-62): numeric values become a bare sample on `{node}`, other
values a `str`-labelled sample of constant `1`. -/
def readingLine (metric_node_id key : String) (v : PyVal) : String :=
  if pyIsNumericValue v then
    promLine (metricNameFor key) ("node=\"" ++ metric_node_id ++ "\"") (pyValStr v)
  else
    promLine (metricNameFor key)
      ("node=\"" ++ metric_node_id ++ "\",str=\"" ++ pyValStr v ++ "\"") "1"

/-- The metadata block of `format_prometheus_metrics` (lines 64-75):
up to four extra metrics, each emitted only when the corresponding
field is non-empty (Python truthiness of the string). -/
def deviceInfoLines (metric_node_id : String) (info : DeviceInfo) : List String :=
  (if info.contact_name ≠ "" then
    [promLine "meshtastic_contact"
      ("node=\"" ++ metric_node_id ++ "\",contact=\"" ++ info.contact_name ++ "\"") "1"]
   else []) ++
  (if info.location ≠ "" then
    [promLine "meshtastic_location"
      ("node=\"" ++ metric_node_id ++ "\",location=\"" ++ info.location ++ "\"") "1"]
   else []) ++
  (if info.latitude ≠ "" then
    [promLine "meshtastic_latitude" ("node=\"" ++ metric_node_id ++ "\"") info.latitude]
   else []) ++
  (if info.longitude ≠ "" then
    [promLine "meshtastic_longitude" ("node=\"" ++ metric_node_id ++ "\"") info.longitude]
   else [])

/-- The final `..._up` line (lines 77-79): value `1` when the reading
set was non-empty, else `0`, with the version label. -/
def upLine (metric_node_id version : String) (telemetry_nonempty : Bool) : String :=
  promLine "meshtastic_up"
    ("node=\"" ++ metric_node_id ++ "\",version=\"" ++ version ++ "\"")
    (if telemetry_nonempty then "1" else "0")

/-- `PrometheusFormatter.format_prometheus_metrics` (prometheus_manager.py
lines 44-81): the readings in insertion order, then the metadata
metrics, then the `up` metric. -/
def format_prometheus_metrics (cfg : FormatterCfg) (node_id : String)
    (telemetry_data : List (String × PyVal)) (device_info : DeviceInfo) : List String :=
  let metric_node_id := format_node_id_for_metric cfg node_id
  (telemetry_data.map (fun kv => readingLine metric_node_id kv.1 kv.2)) ++
    deviceInfoLines metric_node_id device_info ++
    [upLine metric_node_id cfg.version (!telemetry_data.isEmpty)]

/-! ### The daemon's own renderer (meshmetricsd.py lines 529-566)

`MeshtasticTelemetryDaemon.format_prometheus_output` is a near copy of
the library formatter, but the line that assigns its local variable
`clean_node_id` is commented out (source line 534), while every
f-string in the function still references `clean_node_id`.  A Python
local that is referenced without ever being assigned raises `NameError`
at the point of reference; the embedding models the (absent) binding as
an `Option String` that is `none`, and each reference through
`daemonLocalRef` fails with the `NameError` message. -/

/-- The daemon's hard-coded `VERSION = "MTM-v0.98-Daemon"`. -/
def VERSION : String := "MTM-v0.98-Daemon"

/-- Message of the `NameError` raised when `clean_node_id` is referenced. -/
def nameErrorCleanNodeId : String :=
  "NameError: name 'clean_node_id' is not defined"

/-- Reference to the daemon renderer's local variable `clean_node_id`:
returns its value when bound, raises `NameError` when unbound. -/
def daemonLocalRef (binding : Option String) : Except String String :=
  match binding with
  | some v => .ok v
  | none => .error nameErrorCleanNodeId

/-- The telemetry loop of `format_prometheus_output` (lines 537-547);
each iteration references `clean_node_id` inside an f-string. -/
def daemonReadingLines (binding : Option String) :
    List (String × PyVal) → Except String (List String)
  | [] => .ok []
  | (key, v) :: rest => do
    let nid ← daemonLocalRef binding
    let line := readingLine nid key v
    let lines ← daemonReadingLines binding rest
    .ok (line :: lines)

/-- `MeshtasticTelemetryDaemon.format_prometheus_output` (meshmetricsd.py
lines 529-566).  The assignment `clean_node_id = node_id.replace('!', '')`
is commented out in the source, so the local binding is `none`; every
emitted line references it.  The daemon's metadata metric names differ
from the library's (`meshtastic_Location` / `_Latitude` / `_Longitude`,
capitalised as in the source). -/
def format_prometheus_output (node_id : String)
    (telemetry_data : List (String × PyVal)) (device_info : DeviceInfo) :
    Except String (List String) := do
  -- source line 534 is `#         clean_node_id = node_id.replace('!', '')`
  let clean_node_id : Option String := none
  let readings ← daemonReadingLines clean_node_id telemetry_data
  let contact ←
    if device_info.contact_name ≠ "" then do
      let nid ← daemonLocalRef clean_node_id
      pure [promLine "meshtastic_contact"
        ("node=\"" ++ nid ++ "\",contact=\"" ++ device_info.contact_name ++ "\"") "1"]
    else pure []
  let location ←
    if device_info.location ≠ "" then do
      let nid ← daemonLocalRef clean_node_id
      pure [promLine "meshtastic_Location"
        ("node=\"" ++ nid ++ "\",location=\"" ++ device_info.location ++ "\"") "1"]
    else pure []
  let latitude ←
    if device_info.latitude ≠ "" then do
      let nid ← daemonLocalRef clean_node_id
      pure [promLine "meshtastic_Latitude" ("node=\"" ++ nid ++ "\"") device_info.latitude]
    else pure []
  let longitude ←
    if device_info.longitude ≠ "" then do
      let nid ← daemonLocalRef clean_node_id
      pure [promLine "meshtastic_Longitude" ("node=\"" ++ nid ++ "\"") device_info.longitude]
    else pure []
  let nid ← daemonLocalRef clean_node_id
  let up := upLine nid VERSION (!telemetry_data.isEmpty)
  pure (readings ++ contact ++ location ++ latitude ++ longitude ++ [up])

/-! ### Daemon statistics (meshmetricsd.py lines 193-203 and 676-699) -/

/-- `MeshtasticTelemetryDaemon.stats` (lines 193-203).  Timestamps are
ISO strings in the source; counters are non-negative integers. -/
structure DaemonStats where
  start_time : Option String := none
  last_poll : Option String := none
  total_polls : Nat := 0
  successful_polls : Nat := 0
  failed_polls : Nat := 0
  nodes_processed : Nat := 0
  nodes_successful : Nat := 0
  push_successful : Nat := 0
  push_failed : Nat := 0
deriving DecidableEq, Repr

/-- The daemon's initial statistics (all counters zero, lines 193-203). -/
def initStats : DaemonStats := {}

/-- `MeshtasticTelemetryDaemon.update_stats` (lines 676-686; the
stats-file write on lines 688-699 does not change the counters).
`now` stands for `datetime.now().isoformat()`. -/
def update_stats (s : DaemonStats) (now : String)
    (nodes_processed nodes_successful : Nat) : DaemonStats :=
  { s with
    last_poll := some now
    total_polls := s.total_polls + 1
    nodes_processed := s.nodes_processed + nodes_processed
    nodes_successful := s.nodes_successful + nodes_successful
    successful_polls :=
      if nodes_successful > 0 then s.successful_polls + 1 else s.successful_polls
    failed_polls :=
      if nodes_successful > 0 then s.failed_polls else s.failed_polls + 1 }

/-! ### Push gateway clients

`PrometheusPushGateway.push_metrics` (prometheus_manager.py lines
245-292) and `PrometheusExporter.push_metrics` (meshmetricsd.py lines
140-183) body the same algorithm; the library version returns
`(success, error_message)`, the daemon version returns a bare boolean
and logs the reason.  The single effectful statement,
`urllib.request.urlopen(req, timeout=...)`, is embedded as an oracle
from the request (url, payload) to its outcome; every outcome the
Python `try` can observe — a status response, a `URLError`, or any
other exception — is a constructor of `HttpOutcome`, so the embedded
functions are total: failure is a return value. -/

/-- Outcome of the one `urlopen` call: an HTTP status, a `URLError`,
or any other raised exception. -/
inductive HttpOutcome where
  | status (code : Nat)
  | urlError (msg : String)
  | exc (msg : String)
deriving DecidableEq, Repr

/-- Percent-encoding `urllib.parse.quote` with its default `safe='/'`:
ASCII alphanumerics and `_.-~/` kept, every other byte of the UTF-8
encoding escaped as `%XX`. -/
def pyQuote (s : String) : String :=
  ⟨(s.toUTF8.toList.map quoteByte).flatten⟩
where
  hexDigit (n : Nat) : Char := "0123456789ABCDEF".data.getD n '0'
  quoteByte (b : UInt8) : List Char :=
    let n := b.toNat
    let c := Char.ofNat n
    if ('A' ≤ c && c ≤ 'Z') || ('a' ≤ c && c ≤ 'z') || ('0' ≤ c && c ≤ '9')
        || c = '_' || c = '.' || c = '-' || c = '~' || c = '/' then
      [c]
    else
      ['%', hexDigit (n / 16), hexDigit (n % 16)]

/-- Configuration of the push client (constructor arguments, already
`strip()`ped as in `PrometheusPushGateway.__init__`). -/
structure PushCfg where
  push_url : String := ""
  job_name : String := "meshtastic_repeater_telemetry"
  instance_label : String := ""
  timeout : Nat := 30

/-- The push URL `{base}/metrics/job/{job}[/instance/{inst}]` built on
lines 260-265 (components percent-encoded with `urllib.parse.quote`). -/
def pushTargetUrl (cfg : PushCfg) : String :=
  let parts := [cfg.push_url.dropRightWhile (· = '/'), "metrics", "job", pyQuote cfg.job_name]
  let parts := if cfg.instance_label ≠ "" then
    parts ++ ["instance", pyQuote cfg.instance_label] else parts
  String.intercalate "/" parts

/-- The metrics payload `'\n'.join(metrics_data) + '\n'` (line 268). -/
def pushPayload (metrics_data : List String) : String :=
  String.intercalate "\n" metrics_data ++ "\n"

/-- `PrometheusPushGateway.push_metrics` (prometheus_manager.py lines
245-292).  Returns `((success, error_message), attempted_calls)`;
`attempted_calls` counts how many times the embedded `urlopen` oracle
was consulted. -/
def push_metrics (cfg : PushCfg) (urlopen : String → String → HttpOutcome)
    (metrics_data : List String) : (Bool × String) × Nat :=
  if cfg.push_url = "" then
    ((true, ""), 0)  -- No push URL configured, skip silently
  else
    let outcome := urlopen (pushTargetUrl cfg) (pushPayload metrics_data)
    match outcome with
    | .status code =>
      if code = 200 then ((true, ""), 1)
      else ((false, "Push gateway returned status " ++ toString code), 1)
    | .urlError e =>
      ((false, "Failed to push metrics to " ++ cfg.push_url ++ ": " ++ e), 1)
    | .exc e =>
      ((false, "Unexpected error pushing metrics: " ++ e), 1)

/-- `PrometheusExporter.push_metrics` (meshmetricsd.py lines 140-183):
same algorithm, but the result is a bare boolean and the reason goes to
the log; the returned list is the error-log lines the call produces. -/
def push_metrics_daemon (cfg : PushCfg) (urlopen : String → String → HttpOutcome)
    (metrics_data : List String) : (Bool × List String) × Nat :=
  if cfg.push_url = "" then
    ((true, []), 0)  -- No push URL configured, skip silently
  else
    let outcome := urlopen (pushTargetUrl cfg) (pushPayload metrics_data)
    match outcome with
    | .status code =>
      if code = 200 then ((true, []), 1)
      else ((false, ["Push gateway returned status " ++ toString code]), 1)
    | .urlError e =>
      ((false, ["Failed to push metrics to " ++ cfg.push_url ++ ": " ++ e]), 1)
    | .exc e =>
      ((false, ["Unexpected error pushing metrics: " ++ e]), 1)

/-! ### Atomic snapshot publication

`write_output_atomic` exists twice in the repository with the same
algorithm (prometheus_manager.py lines 101-145 and meshmetricsd.py
lines 568-614): create a temporary file with `tempfile.mkstemp` in the
target's directory, write the content, `flush` and `os.fsync` it,
close it, then `os.rename` it onto the target; on any failure the
partially written temporary file is unlinked and the exception is
re-raised.  The filesystem is embedded as a map from path to file
content, and the failure point is an oracle over the four effectful
steps.  A failed write may leave an arbitrary partial prefix in the
temporary file, supplied as `partialContent`. -/

/-- A filesystem: each path holds a complete file content or nothing. -/
def FS : Type := String → Option String

/-- Update one path of a filesystem. -/
def fsSet (fs : FS) (p : String) (v : Option String) : FS :=
  fun q => if q = p then v else fs q

/-- The four effectful steps of `write_output_atomic`. -/
inductive AtomicStep where
  | mkstempStep
  | writeStep
  | fsyncStep
  | renameStep
deriving DecidableEq, Repr

/-- Result of one `write_output_atomic` call: the sequence of
filesystem states it produced (starting with the initial one — a
reader can observe any element), the final state, and whether the call
returned normally (`false` means the exception propagated to the
caller, after the `except` block's cleanup ran). -/
structure AtomicRun where
  states : List FS
  final : FS
  completed : Bool

/-- `write_output_atomic(content, filepath)` with target path `target`;
`temp` is the fresh name `mkstemp` picks inside the target's directory,
and `good` tells which steps succeed.  The Unix branch (`os.rename`) is
modelled; `os.rename` replaces `target` in one indivisible step. -/
def write_output_atomic (fs0 : FS) (content : String) (target temp : String)
    (good : AtomicStep → Bool) (partialContent : String) : AtomicRun :=
  if good .mkstempStep then
    -- mkstemp created the (empty, exclusive) temporary file
    let fs1 := fsSet fs0 temp (some "")
    if good .writeStep then
      let fs2 := fsSet fs1 temp (some content)
      if good .fsyncStep then
        if good .renameStep then
          -- os.rename: temp disappears and target holds the new content
          let fs3 := fsSet (fsSet fs2 temp none) target (some content)
          ⟨[fs0, fs1, fs2, fs3], fs3, true⟩
        else
          -- rename failed: cleanup unlinks the temporary file, re-raise
          let fs3 := fsSet fs2 temp none
          ⟨[fs0, fs1, fs2, fs3], fs3, false⟩
      else
        -- fsync failed: cleanup unlinks the temporary file, re-raise
        let fs3 := fsSet fs2 temp none
        ⟨[fs0, fs1, fs2, fs3], fs3, false⟩
    else
      -- the write failed partway: temp holds a partial prefix until
      -- the cleanup unlinks it, then the exception propagates
      let fs2 := fsSet fs1 temp (some partialContent)
      let fs3 := fsSet fs2 temp none
      ⟨[fs0, fs1, fs2, fs3], fs3, false⟩
  else
    -- mkstemp itself failed: no file was ever created
    ⟨[fs0], fs0, false⟩

/-! ### The daemon's per-cycle sink delivery and poll loop
(meshmetricsd.py lines 616-674, 701-741, 800-813)

Only the statistics-relevant structure is embedded: the file-sink
branch of `write_output` swallows its own errors per file and does not
touch the counters, so it is not represented; the push branch
increments exactly one of `push_successful` / `push_failed` when a
push URL is configured.  `poll_devices` renders through the daemon's
own `format_prometheus_output`; an exception from the loop body
propagates out of `poll_devices` and is caught by the `while` loop in
`run` (lines 810-813), leaving the statistics untouched for that
cycle. -/

/-- The push branch of `MeshtasticTelemetryDaemon.write_output` (lines
668-674): when a push URL is configured, exactly one push counter is
incremented according to the push outcome `pushOk`. -/
def write_output_push (cfg : PushCfg) (stats : DaemonStats) (pushOk : Bool) : DaemonStats :=
  if cfg.push_url ≠ "" then
    if pushOk then { stats with push_successful := stats.push_successful + 1 }
    else { stats with push_failed := stats.push_failed + 1 }
  else stats

/-- The device loop of `poll_devices` (lines 710-734): per device the
node counters grow and the rendered lines accumulate; rendering uses
the daemon's `format_prometheus_output`, whose exception propagates.
Returns `(nodes_processed, nodes_successful, all_output_lines)`. -/
def pollDeviceLoop (telem : String → List (String × PyVal)) :
    List DeviceInfo → Except String (Nat × Nat × List String)
  | [] => .ok (0, 0, [])
  | device :: rest => do
    let telemetry_data := telem device.node_id
    let output_lines ← format_prometheus_output device.node_id telemetry_data device
    let (np, ns, lines) ← pollDeviceLoop telem rest
    .ok (np + 1, ns + (if telemetry_data.isEmpty then 0 else 1), output_lines ++ lines)

/-- `MeshtasticTelemetryDaemon.poll_devices` (lines 701-741): poll every
device, write the output when any lines were produced (updating the
push counters), then `update_stats`. -/
def poll_devices (cfg : PushCfg) (stats : DaemonStats)
    (devices : List DeviceInfo) (telem : String → List (String × PyVal))
    (pushOk : Bool) (now : String) : Except String DaemonStats := do
  let (nodes_processed, nodes_successful, all_output_lines) ← pollDeviceLoop telem devices
  let stats := if all_output_lines.isEmpty then stats
    else write_output_push cfg stats pushOk
  .ok (update_stats stats now nodes_processed nodes_successful)

/-- One iteration of the daemon's polling `while` loop (lines 800-813):
an exception from `poll_devices` is caught and logged, and the daemon
continues with the statistics unchanged. -/
def run_cycle (cfg : PushCfg) (stats : DaemonStats)
    (devices : List DeviceInfo) (telem : String → List (String × PyVal))
    (pushOk : Bool) (now : String) : DaemonStats :=
  match poll_devices cfg stats devices telem pushOk now with
  | .ok stats' => stats'
  | .error _ => stats

/-- File name the library's per-device writer uses
(prometheus_manager.py lines 190-192). -/
def lib_individual_filename (node_id : String) : String :=
  "meshtastic-" ++ sanitize_filename node_id ++ ".prom"

/-- File name the daemon's own per-device branch uses (meshmetricsd.py
line 641): the node id is interpolated without sanitization. -/
def daemon_individual_filename (node_id : String) : String :=
  "meshtastic-" ++ node_id ++ ".prom"

/-- Metric name of a rendered line: the text before the first opening
brace (the form `_write_individual_files` and this file's statements
use to recognise a line's metric). -/
def metricNameOf (line : String) : String :=
  ⟨line.data.takeWhile (fun c => c ≠ '\x7b')⟩

/-! ## Helper lemmas -/

theorem takeWhile_append_stop (p : Char → Bool) {c : Char} (hc : p c = false)
    (xs ys : List Char) : (xs ++ c :: ys).takeWhile p = xs.takeWhile p := by
  induction xs with
  | nil => simp [List.takeWhile, hc]
  | cons x xs ih =>
    by_cases hx : p x <;> simp [List.takeWhile_cons, hx, ih]

theorem metricNameOf_promLine (n l v : String) :
    metricNameOf (promLine n l v) = metricNameOf n := by
  unfold metricNameOf promLine
  apply congrArg String.mk
  have : (n ++ "\x7b" ++ l ++ "\x7d " ++ v).data
      = n.data ++ '\x7b' :: (l.data ++ ('\x7d' :: ' ' :: v.data)) := by
    simp [String.data_append]
  rw [this, takeWhile_append_stop _ (by decide)]

theorem metricNameOf_readingLine (nid key : String) (v : PyVal) :
    metricNameOf (readingLine nid key v) = metricNameOf (metricNameFor key) := by
  unfold readingLine
  split <;> rw [metricNameOf_promLine]

theorem append_ne_empty_left {s : String} (t : String) (h : s ≠ "") : s ++ t ≠ "" := by
  intro he
  apply h
  have hlen := congrArg String.length he
  rw [String.length_append] at hlen
  have : s.length = 0 := by
    have := String.length_empty
    omega
  exact String.ext (List.length_eq_zero.mp this)

/-! ## C2 — the daemon's renderer always raises `NameError` -/

/-- C2: for every node identifier, telemetry reading set and device
metadata, `MeshtasticTelemetryDaemon.format_prometheus_output` raises
`NameError` instead of returning metric lines: every emitted line
references the local `clean_node_id`, whose only assignment is
commented out, so no call completes successfully. -/
theorem daemon_renderer_always_raises
    (node_id : String) (ts : List (String × PyVal)) (dev : DeviceInfo) :
    format_prometheus_output node_id ts dev = .error nameErrorCleanNodeId := by
  cases ts with
  | nil =>
    simp only [format_prometheus_output, daemonReadingLines, daemonLocalRef]
    split_ifs <;> rfl
  | cons kv rest => rfl

/-- C2 has no hypothesis, but the concrete evaluation from the spec's
end-to-end scenario documents the failure mode. -/
theorem daemon_renderer_raises_example :
    format_prometheus_output "!a1b2c3d4"
      [("Battery", .vint 87), ("Voltage", .vstr "4.1")]
      { node_id := "!a1b2c3d4", contact_name := "Base" } =
      .error nameErrorCleanNodeId := rfl

/-! ## C9 — statistics update invariants -/

/-- Invariant `total_polls = successful_polls + failed_polls` is
preserved by `update_stats` and holds for any update sequence from the
daemon's initial statistics. -/
theorem statsFold_total_eq (updates : List (String × Nat × Nat)) (s : DaemonStats)
    (h : s.total_polls = s.successful_polls + s.failed_polls) :
    (updates.foldl (fun t u => update_stats t u.1 u.2.1 u.2.2) s).total_polls =
      (updates.foldl (fun t u => update_stats t u.1 u.2.1 u.2.2) s).successful_polls +
      (updates.foldl (fun t u => update_stats t u.1 u.2.1 u.2.2) s).failed_polls := by
  induction updates generalizing s with
  | nil => exact h
  | cons u rest ih =>
    apply ih
    unfold update_stats
    by_cases hn : u.2.2 > 0 <;> simp [hn] <;> omega

/-- C9: each `update_stats` call increments `total_polls` by exactly 1,
increments exactly one of `successful_polls` / `failed_polls` by
exactly 1 (the former iff at least one device yielded a non-empty
reading set, i.e. `nodes_successful > 0`), leaves every counter
non-decreasing, and from the initial statistics the invariant
`total_polls = successful_polls + failed_polls` always holds. -/
theorem update_stats_spec :
    (∀ (s : DaemonStats) (now : String) (np ns : Nat),
      (update_stats s now np ns).total_polls = s.total_polls + 1 ∧
      (0 < ns → (update_stats s now np ns).successful_polls = s.successful_polls + 1 ∧
        (update_stats s now np ns).failed_polls = s.failed_polls) ∧
      (ns = 0 → (update_stats s now np ns).failed_polls = s.failed_polls + 1 ∧
        (update_stats s now np ns).successful_polls = s.successful_polls) ∧
      s.total_polls ≤ (update_stats s now np ns).total_polls ∧
      s.successful_polls ≤ (update_stats s now np ns).successful_polls ∧
      s.failed_polls ≤ (update_stats s now np ns).failed_polls ∧
      s.nodes_processed ≤ (update_stats s now np ns).nodes_processed ∧
      s.nodes_successful ≤ (update_stats s now np ns).nodes_successful ∧
      s.push_successful ≤ (update_stats s now np ns).push_successful ∧
      s.push_failed ≤ (update_stats s now np ns).push_failed) ∧
    (∀ updates : List (String × Nat × Nat),
      (updates.foldl (fun t u => update_stats t u.1 u.2.1 u.2.2) initStats).total_polls =
        (updates.foldl (fun t u => update_stats t u.1 u.2.1 u.2.2) initStats).successful_polls +
        (updates.foldl (fun t u => update_stats t u.1 u.2.1 u.2.2) initStats).failed_polls) := by
  constructor
  · intro s now np ns
    unfold update_stats
    by_cases hn : ns > 0 <;> simp [hn] <;> omega
  · intro updates
    exact statsFold_total_eq updates initStats rfl

/-- Witness for C9 at a concrete update: one successful poll from the
initial statistics. -/
theorem update_stats_spec_witness :
    (update_stats initStats "2026-01-01T00:00:00" 2 1).successful_polls = 0 + 1 ∧
    (update_stats initStats "2026-01-01T00:00:00" 2 1).failed_polls = 0 ∧
    (update_stats initStats "2026-01-01T00:00:00" 2 1).total_polls = 0 + 1 := by
  have h := update_stats_spec.1 initStats "2026-01-01T00:00:00" 2 1
  exact ⟨(h.2.1 (by decide)).1, (h.2.1 (by decide)).2, h.1⟩

/-! ## C6 — per-device file names -/

/-- C6 counterexample: `sanitize_filename` is not injective, so two
distinct node identifiers can collide on the same file name; moreover
the daemon's own per-device branch interpolates the raw identifier, so
its file name can contain a path separator. -/
theorem sanitize_filename_collision :
    lib_individual_filename "a/b" = lib_individual_filename "a_b" ∧
    "a/b" ≠ "a_b" ∧
    daemon_individual_filename "a/b" = "meshtastic-a/b.prom" := by
  refine ⟨?_, by decide, rfl⟩
  decide

/-- C6 (amended): the library's per-device writer derives its file
names through `sanitize_filename`, which removes the `!` sigil and
replaces `/` and `\` by `_`, so no derived file name contains a path
separator; sanitization is however not injective, so distinct node
identifiers may collide, and the daemon's own `write_output` uses the
raw identifier. -/
theorem sanitize_filename_no_separator (node_id : String) :
    '/' ∉ (lib_individual_filename node_id).data ∧
    '\\' ∉ (lib_individual_filename node_id).data := by
  have hmid : ∀ c ∈ (sanitize_filename node_id).data, c ≠ '/' ∧ c ≠ '\\' := by
    intro c hc
    unfold sanitize_filename at hc
    simp only [List.mem_map] at hc
    obtain ⟨x, _, hx⟩ := hc
    subst hx
    by_cases h1 : x = '/' <;> by_cases h2 : x = '\\' <;> simp [h1, h2]
  have hdata : (lib_individual_filename node_id).data =
      "meshtastic-".data ++ (sanitize_filename node_id).data ++ ".prom".data := by
    simp [lib_individual_filename, String.data_append]
  constructor
  · rw [hdata]
    intro hmem
    rcases List.mem_append.mp hmem with hmem' | h3
    · rcases List.mem_append.mp hmem' with h1 | h2
      · revert h1; decide
      · exact (hmid _ h2).1 rfl
    · revert h3; decide
  · rw [hdata]
    intro hmem
    rcases List.mem_append.mp hmem with hmem' | h3
    · rcases List.mem_append.mp hmem' with h1 | h2
      · revert h1; decide
      · exact (hmid _ h2).2 rfl
    · revert h3; decide

/-! ## C5 — push client returns outcomes, never raises -/

/-- C5: for every configuration, `urlopen` behaviour (including raised
exceptions) and snapshot, `push_metrics` returns a success flag with a
human-readable reason — success holds exactly when no endpoint is
configured or the gateway answered 200, and every failure carries a
non-empty reason; when no push URL is configured it succeeds without
consulting the network at all.  The daemon's `PrometheusExporter`
variant behaves the same with the reason in its error log. -/
theorem push_metrics_spec (cfg : PushCfg)
    (urlopen : String → String → HttpOutcome) (data : List String) :
    ((push_metrics cfg urlopen data).1.1 = true ↔
      cfg.push_url = "" ∨ urlopen (pushTargetUrl cfg) (pushPayload data) = .status 200) ∧
    ((push_metrics cfg urlopen data).1.1 = false → (push_metrics cfg urlopen data).1.2 ≠ "") ∧
    (cfg.push_url = "" →
      push_metrics cfg urlopen data = ((true, ""), 0) ∧
      push_metrics_daemon cfg urlopen data = ((true, []), 0)) ∧
    ((push_metrics_daemon cfg urlopen data).1.1 = false →
      (push_metrics_daemon cfg urlopen data).1.2 ≠ []) := by
  unfold push_metrics push_metrics_daemon
  by_cases hurl : cfg.push_url = ""
  · simp [hurl]
  · cases houtcome : urlopen (pushTargetUrl cfg) (pushPayload data) with
    | status code =>
      by_cases hcode : code = 200
      · simp [hurl, houtcome, hcode]
      · simp only [hurl, houtcome, hcode, if_neg, if_false, reduceIte]
        refine ⟨by simp [hcode, hurl], ?_, by simp [hurl], by simp⟩
        intro _
        exact append_ne_empty_left _ (by decide)
    | urlError e =>
      simp only [hurl, houtcome, if_neg, reduceIte]
      refine ⟨by simp [hurl], ?_, by simp [hurl], by simp⟩
      intro _
      exact append_ne_empty_left e
        (append_ne_empty_left ": " (append_ne_empty_left cfg.push_url (by decide)))
    | exc e =>
      simp only [hurl, houtcome, if_neg, reduceIte]
      refine ⟨by simp [hurl], ?_, by simp [hurl], by simp⟩
      intro _
      exact append_ne_empty_left _ (by decide)

/-- Witness for C5: with no endpoint configured and an `urlopen` that
would raise, both clients report success without a network call. -/
theorem push_metrics_spec_witness :
    push_metrics { push_url := "" } (fun _ _ => .exc "boom") ["meshtastic_up 1"] =
      ((true, ""), 0) ∧
    push_metrics_daemon { push_url := "" } (fun _ _ => .exc "boom") ["meshtastic_up 1"] =
      ((true, []), 0) :=
  (push_metrics_spec { push_url := "" } (fun _ _ => .exc "boom") ["meshtastic_up 1"]).2.2.1 rfl

/-! ## C1 — atomic file publication -/

/-- C1: for every initial filesystem, snapshot content and failure
pattern, `write_output_atomic` only ever exposes the previous target
content or the complete new content at the target path (never a
partial write); on success the target holds the new content and the
temporary file is gone; on any failure before the rename completes the
target still holds its previous content and the temporary file has
been removed. -/
theorem write_output_atomic_spec (fs0 : FS) (content target temp partialContent : String)
    (good : AtomicStep → Bool) (htemp : temp ≠ target) (hfresh : fs0 temp = none) :
    (∀ fs ∈ (write_output_atomic fs0 content target temp good partialContent).states,
      fs target = fs0 target ∨ fs target = some content) ∧
    ((write_output_atomic fs0 content target temp good partialContent).completed = true →
      (write_output_atomic fs0 content target temp good partialContent).final target
        = some content ∧
      (write_output_atomic fs0 content target temp good partialContent).final temp = none) ∧
    ((write_output_atomic fs0 content target temp good partialContent).completed = false →
      (write_output_atomic fs0 content target temp good partialContent).final target
        = fs0 target ∧
      (write_output_atomic fs0 content target temp good partialContent).final temp = none) := by
  have hts : (target = temp) = False := by
    simp only [eq_iff_iff, iff_false]
    exact fun h => htemp h.symm
  unfold write_output_atomic
  by_cases h1 : good AtomicStep.mkstempStep <;>
    by_cases h2 : good AtomicStep.writeStep <;>
      by_cases h3 : good AtomicStep.fsyncStep <;>
        by_cases h4 : good AtomicStep.renameStep <;>
          simp [h1, h2, h3, h4, fsSet, hts, hfresh, htemp]

/-- Witness for C1: a concrete run in which the rename step fails —
the target keeps its (absent) previous content and the temporary file
is removed. -/
theorem write_output_atomic_spec_witness :
    ((write_output_atomic (fun _ => none) "meshtastic_up 1\n" "meshtastic.prom"
        ".meshtastic.prom.x7.tmp" (fun s => !(s == AtomicStep.renameStep)) "meshtastic_u").final
      "meshtastic.prom" = (fun _ => none : FS) "meshtastic.prom") ∧
    ((write_output_atomic (fun _ => none) "meshtastic_up 1\n" "meshtastic.prom"
        ".meshtastic.prom.x7.tmp" (fun s => !(s == AtomicStep.renameStep)) "meshtastic_u").final
      ".meshtastic.prom.x7.tmp" = none) :=
  (write_output_atomic_spec (fun _ => none) "meshtastic_up 1\n" "meshtastic.prom"
    ".meshtastic.prom.x7.tmp" "meshtastic_u" (fun s => !(s == AtomicStep.renameStep))
    (by decide) rfl).2.2 rfl

/-! ## C10 — push counters per cycle (code bug) -/

/-- C10 fails on the code: in a cycle with a configured push endpoint
and one device, the daemon's renderer raises `NameError` (C2), the
cycle aborts before `write_output`, and neither `push_successful` nor
`push_failed` is incremented — the claim requires exactly one of them
to grow by 1. -/
theorem push_counter_bug :
    ({ push_url := "http://gw.example:9091" } : PushCfg).push_url ≠ "" ∧
    poll_devices { push_url := "http://gw.example:9091" } initStats
      [{ node_id := "!a1b2c3d4", contact_name := "Base" }]
      (fun _ => [("Battery", .vint 87)]) true "2026-01-01T00:00:00" =
      .error nameErrorCleanNodeId ∧
    run_cycle { push_url := "http://gw.example:9091" } initStats
      [{ node_id := "!a1b2c3d4", contact_name := "Base" }]
      (fun _ => [("Battery", .vint 87)]) true "2026-01-01T00:00:00" = initStats ∧
    initStats.push_successful = 0 ∧ initStats.push_failed = 0 :=
  ⟨by decide, rfl, rfl, rfl, rfl⟩

/-! ## C3 — numeric dispatch of the renderer -/

/-- The claim's description of a numeric-looking character sequence: an
optional leading sign, then digits, then an optional fractional part (a
dot followed by further digits — the source regex also accepts the dot
with no digits after it). -/
def SpecNumericChars (l : List Char) : Prop :=
  ∃ sgn ds fr : List Char,
    l = sgn ++ ds ++ fr ∧
    (sgn = [] ∨ sgn = ['+'] ∨ sgn = ['-']) ∧
    ds ≠ [] ∧ (∀ c ∈ ds, isAsciiDigit c = true) ∧
    (fr = [] ∨ ∃ fd, fr = '.' :: fd ∧ ∀ c ∈ fd, isAsciiDigit c = true)

/-- The claim's description of a numeric-looking string. -/
def SpecNumericString (s : String) : Prop := SpecNumericChars s.data

/-- The amended description: the sign/digits/fraction form, optionally
followed by one final newline (which the source regex's `$` tolerates). -/
def SpecNumericStringNL (s : String) : Prop :=
  SpecNumericChars s.data ∨ ∃ l, s.data = l ++ ['\n'] ∧ SpecNumericChars l

theorem digit_not_sign {c : Char} (h : isAsciiDigit c = true) :
    (c == '+' || c == '-') = false := by
  by_cases hp : c = '+'
  · subst hp; exact absurd h (by decide)
  · by_cases hm : c = '-'
    · subst hm; exact absurd h (by decide)
    · simp [hp, hm]

theorem numericBody_eq_true_iff (cs : List Char) :
    numericBody cs = true ↔
      ∃ ds fr, cs = ds ++ fr ∧ ds ≠ [] ∧ (∀ c ∈ ds, isAsciiDigit c = true) ∧
        (fr = [] ∨ ∃ fd, fr = '.' :: fd ∧ ∀ c ∈ fd, isAsciiDigit c = true) := by
  have hdot : isAsciiDigit '.' = false := by decide
  constructor
  · intro h
    unfold numericBody at h
    rcases Bool.and_eq_true_iff.mp h with ⟨h1, h2⟩
    refine ⟨cs.takeWhile isAsciiDigit, cs.dropWhile isAsciiDigit,
      (List.takeWhile_append_dropWhile _ _).symm, of_decide_eq_true h1,
      fun c hc => List.mem_takeWhile_imp hc, ?_⟩
    cases hfr : cs.dropWhile isAsciiDigit with
    | nil => exact Or.inl rfl
    | cons c tail =>
      rw [hfr] at h2
      rcases Bool.and_eq_true_iff.mp h2 with ⟨hc, htail⟩
      refine Or.inr ⟨tail, ?_, fun x hx => List.all_eq_true.mp htail x hx⟩
      rw [eq_of_beq hc]
  · rintro ⟨ds, fr, rfl, hne, hds, hfr⟩
    unfold numericBody
    have htake := @List.takeWhile_append_of_pos _ _ ds fr hds
    have hdrop := @List.dropWhile_append_of_pos _ _ ds fr hds
    rcases hfr with rfl | ⟨fd, rfl, hfd⟩
    · rw [List.append_nil] at htake hdrop ⊢
      rw [htake, hdrop, List.takeWhile_nil, List.dropWhile_nil, List.append_nil]
      simp [hne]
    · have htfr : ('.' :: fd).takeWhile isAsciiDigit = [] := by
        simp [List.takeWhile_cons, hdot]
      have hdfr : ('.' :: fd).dropWhile isAsciiDigit = '.' :: fd := by
        simp [List.dropWhile_cons, hdot]
      rw [htake, hdrop, htfr, hdfr, List.append_nil]
      simp only [Bool.and_eq_true, decide_eq_true_eq]
      exact ⟨hne, by simp, List.all_eq_true.mpr hfd⟩

theorem matchesNumericCore_iff (l : List Char) :
    matchesNumericCore l = true ↔ SpecNumericChars l := by
  unfold SpecNumericChars
  cases l with
  | nil =>
    constructor
    · intro h; exact absurd h (by decide)
    · rintro ⟨sgn, ds, fr, heq, _, hne, _, _⟩
      exact absurd (List.append_eq_nil.mp (List.append_eq_nil.mp heq.symm).1).2 hne
  | cons c rest =>
    show (if c == '+' || c == '-' then numericBody rest else numericBody (c :: rest))
        = true ↔ _
    by_cases hsign : (c == '+' || c == '-') = true
    · rw [if_pos hsign, numericBody_eq_true_iff]
      constructor
      · rintro ⟨ds, fr, hrest, hne, hds, hfr⟩
        refine ⟨[c], ds, fr, ?_, ?_, hne, hds, hfr⟩
        · rw [hrest]; rfl
        · rcases Bool.or_eq_true_iff.mp hsign with hc | hc
          · exact Or.inr (Or.inl (by rw [eq_of_beq hc]))
          · exact Or.inr (Or.inr (by rw [eq_of_beq hc]))
      · rintro ⟨sgn, ds, fr, heq, hsgn, hne, hds, hfr⟩
        rcases hsgn with rfl | rfl | rfl
        · -- no sign: the first char would be a digit, contradicting hsign
          cases ds with
          | nil => exact absurd rfl hne
          | cons d dt =>
            simp only [List.nil_append, List.cons_append, List.cons.injEq] at heq
            have hdigit := hds d (List.mem_cons_self d dt)
            rw [← heq.1] at hdigit
            rw [digit_not_sign hdigit] at hsign
            exact absurd hsign (by simp)
        · simp only [List.cons_append, List.nil_append, List.cons.injEq] at heq
          exact ⟨ds, fr, heq.2, hne, hds, hfr⟩
        · simp only [List.cons_append, List.nil_append, List.cons.injEq] at heq
          exact ⟨ds, fr, heq.2, hne, hds, hfr⟩
    · rw [if_neg hsign, numericBody_eq_true_iff]
      rw [Bool.not_eq_true] at hsign
      constructor
      · rintro ⟨ds, fr, hrest, hne, hds, hfr⟩
        exact ⟨[], ds, fr, by rw [hrest]; rfl, Or.inl rfl, hne, hds, hfr⟩
      · rintro ⟨sgn, ds, fr, heq, hsgn, hne, hds, hfr⟩
        rcases hsgn with rfl | rfl | rfl
        · rw [List.nil_append] at heq
          exact ⟨ds, fr, heq, hne, hds, hfr⟩
        · simp only [List.cons_append, List.nil_append, List.cons.injEq] at heq
          rw [heq.1] at hsign
          exact absurd hsign (by decide)
        · simp only [List.cons_append, List.nil_append, List.cons.injEq] at heq
          rw [heq.1] at hsign
          exact absurd hsign (by decide)

theorem matchesNumericRegex_iff_specNL (s : String) :
    matchesNumericRegex s = true ↔ SpecNumericStringNL s := by
  unfold matchesNumericRegex SpecNumericStringNL
  rw [Bool.or_eq_true_iff, matchesNumericCore_iff]
  refine or_congr Iff.rfl ?_
  cases hlast : s.data.getLast? with
  | none =>
    constructor
    · intro h; exact Bool.noConfusion h
    · rintro ⟨l, hl, _⟩
      rw [hl, List.getLast?_concat] at hlast
      exact absurd hlast (by simp)
  | some c =>
    constructor
    · intro h
      rcases Bool.and_eq_true_iff.mp h with ⟨hc, hcore⟩
      have hcn : c = '\n' := eq_of_beq hc
      subst hcn
      refine ⟨s.data.dropLast, ?_, (matchesNumericCore_iff _).mp hcore⟩
      exact (List.dropLast_append_getLast? '\n' hlast).symm
    · rintro ⟨l, hl, hcore⟩
      have hsome : s.data.getLast? = some '\n' := by
        rw [hl, List.getLast?_concat]
      rw [hlast] at hsome
      have hcn : c = '\n' := Option.some.inj hsome
      have hdl : s.data.dropLast = l := by rw [hl, List.dropLast_concat]
      rw [hcn, hdl, Bool.and_eq_true_iff]
      exact ⟨rfl, (matchesNumericCore_iff l).mpr hcore⟩

/-- C3, counterexample to the original claim: the source regex's `$`
also matches just before a trailing newline, so the renderer emits the
string value `"73\n"` as a bare numeric sample even though it is not
of the claim's sign/digits/fraction form — the claim would require a
`str`-labelled line of value `1` for it. -/
theorem reading_value_newline_counterexample :
    ¬ SpecNumericString "73\n" ∧
    (format_prometheus_metrics {} "!a1b2c3d4" [("Battery", .vstr "73\n")] {}).take 1 =
      ["meshtastic_battery\x7bnode=\"!a1b2c3d4\"\x7d 73\n"] ∧
    (format_prometheus_metrics {} "!a1b2c3d4" [("Battery", .vstr "73\n")] {}).take 1 ≠
      ["meshtastic_battery\x7bnode=\"!a1b2c3d4\",str=\"73\n\"\x7d 1"] := by
  refine ⟨?_, by decide, by decide⟩
  intro h
  have hc := (matchesNumericCore_iff _).mpr h
  exact absurd hc (by decide)

/-- C3, amended: every reading key renders as `meshtastic_` plus the
lowercased, space-to-underscore key; ints, floats and strings accepted
by the source regex — equivalent, by the second conjunct, to the
claim's sign/digits/fraction form optionally followed by one trailing
newline — carry their value bare on the `{node}` label set, anything
else carries value `1` with an extra `str` label. -/
theorem reading_value_rendering :
    (∀ (cfg : FormatterCfg) (node_id : String) (ts : List (String × PyVal))
      (dev : DeviceInfo),
      (format_prometheus_metrics cfg node_id ts dev).take ts.length =
        ts.map (fun kv =>
          if pyIsNumericValue kv.2 then
            promLine (metricNameFor kv.1)
              ("node=\"" ++ format_node_id_for_metric cfg node_id ++ "\"")
              (pyValStr kv.2)
          else
            promLine (metricNameFor kv.1)
              ("node=\"" ++ format_node_id_for_metric cfg node_id ++ "\",str=\"" ++
                pyValStr kv.2 ++ "\"") "1")) ∧
    (∀ s : String, matchesNumericRegex s = true ↔ SpecNumericStringNL s) := by
  constructor
  · intro cfg node_id ts dev
    unfold format_prometheus_metrics
    rw [List.append_assoc, List.take_left' (by rw [List.length_map])]
    rfl
  · exact matchesNumericRegex_iff_specNL

/-- Witness for C3 on the spec's own examples plus the newline case:
`"73"`, `"-1.5"` and `"73\n"` render bare, `"ok"` renders with a `str`
label. -/
theorem reading_value_rendering_witness :
    (format_prometheus_metrics {} "!a1b2c3d4"
      [("Battery", .vstr "73"), ("v", .vstr "-1.5"), ("state", .vstr "ok"),
       ("raw", .vstr "73\n")] {}).take 4 =
      ["meshtastic_battery\x7bnode=\"!a1b2c3d4\"\x7d 73",
       "meshtastic_v\x7bnode=\"!a1b2c3d4\"\x7d -1.5",
       "meshtastic_state\x7bnode=\"!a1b2c3d4\",str=\"ok\"\x7d 1",
       "meshtastic_raw\x7bnode=\"!a1b2c3d4\"\x7d 73\n"] ∧
    (matchesNumericRegex "-1.5" = true ↔ SpecNumericStringNL "-1.5") ∧
    (matchesNumericRegex "73\n" = true ↔ SpecNumericStringNL "73\n") := by
  refine ⟨?_, reading_value_rendering.2 "-1.5", reading_value_rendering.2 "73\n"⟩
  have h := reading_value_rendering.1 {} "!a1b2c3d4"
    [("Battery", .vstr "73"), ("v", .vstr "-1.5"), ("state", .vstr "ok"),
     ("raw", .vstr "73\n")] {}
  exact h.trans (by decide)

/-! ## C4 — exactly one `up` metric, last, with the version label -/

theorem metricNameOf_upLine (nid ver : String) (b : Bool) :
    metricNameOf (upLine nid ver b) = "meshtastic_up" := by
  unfold upLine
  rw [metricNameOf_promLine]
  decide

theorem deviceInfoLines_not_up (nid : String) (dev : DeviceInfo) :
    ∀ l ∈ deviceInfoLines nid dev, (metricNameOf l == "meshtastic_up") = false := by
  intro l hl
  unfold deviceInfoLines at hl
  have hup : ∀ (n a b : String), metricNameOf n ≠ "meshtastic_up" →
      (metricNameOf (promLine n a b) == "meshtastic_up") = false := by
    intro n a b hn
    rw [metricNameOf_promLine]
    exact beq_eq_false_iff_ne.mpr hn
  rcases List.mem_append.mp hl with h4 | h4
  rcases List.mem_append.mp h4 with h3 | h3
  rcases List.mem_append.mp h3 with h2 | h2
  · split_ifs at h2 with hc
    · rw [List.mem_singleton.mp h2]; exact hup _ _ _ (by decide)
    · exact absurd h2 (List.not_mem_nil _)
  · split_ifs at h2 with hc
    · rw [List.mem_singleton.mp h2]; exact hup _ _ _ (by decide)
    · exact absurd h2 (List.not_mem_nil _)
  · split_ifs at h3 with hc
    · rw [List.mem_singleton.mp h3]; exact hup _ _ _ (by decide)
    · exact absurd h3 (List.not_mem_nil _)
  · split_ifs at h4 with hc
    · rw [List.mem_singleton.mp h4]; exact hup _ _ _ (by decide)
    · exact absurd h4 (List.not_mem_nil _)

/-- C4: when no reading key collides with the fixed name
`meshtastic_up` (the daemon's telemetry keys never do), the rendered
output contains exactly one `..._up` line, it is the final line, its
value is `1` iff the reading set was non-empty and it carries the
formatter's version label; for an empty reading set the output is
exactly the non-empty metadata metrics plus that single `up` line with
value `0`. -/
theorem up_metric_spec (cfg : FormatterCfg) (node_id : String)
    (ts : List (String × PyVal)) (dev : DeviceInfo)
    (h : ∀ kv ∈ ts, metricNameOf (metricNameFor kv.1) ≠ "meshtastic_up") :
    ((format_prometheus_metrics cfg node_id ts dev).filter
        (fun l => metricNameOf l == "meshtastic_up")).length = 1 ∧
    (format_prometheus_metrics cfg node_id ts dev).getLast? =
      some (upLine (format_node_id_for_metric cfg node_id) cfg.version (!ts.isEmpty)) ∧
    (ts = [] → format_prometheus_metrics cfg node_id ts dev =
      deviceInfoLines (format_node_id_for_metric cfg node_id) dev ++
        [upLine (format_node_id_for_metric cfg node_id) cfg.version false]) := by
  refine ⟨?_, ?_, ?_⟩
  · unfold format_prometheus_metrics
    rw [List.filter_append, List.filter_append]
    have hA : (ts.map (fun kv => readingLine (format_node_id_for_metric cfg node_id)
        kv.1 kv.2)).filter (fun l => metricNameOf l == "meshtastic_up") = [] := by
      rw [List.filter_eq_nil_iff]
      intro a ha
      rcases List.mem_map.mp ha with ⟨kv, hkv, rfl⟩
      rw [metricNameOf_readingLine]
      simp [h kv hkv]
    have hB : (deviceInfoLines (format_node_id_for_metric cfg node_id) dev).filter
        (fun l => metricNameOf l == "meshtastic_up") = [] := by
      rw [List.filter_eq_nil_iff]
      intro a ha
      simp [deviceInfoLines_not_up _ dev a ha]
    rw [hA, hB]
    simp [metricNameOf_upLine]
  · unfold format_prometheus_metrics
    exact List.getLast?_concat _
  · intro hts
    subst hts
    rfl

/-- Witness for C4: the spec's end-to-end device with one reading. -/
theorem up_metric_spec_witness :
    ((format_prometheus_metrics {} "!a1b2c3d4" [("Battery", .vint 87)]
        { node_id := "!a1b2c3d4", contact_name := "Base" }).filter
      (fun l => metricNameOf l == "meshtastic_up")).length = 1 ∧
    (format_prometheus_metrics {} "!a1b2c3d4" [("Battery", .vint 87)]
        { node_id := "!a1b2c3d4", contact_name := "Base" }).getLast? =
      some (upLine "!a1b2c3d4" "MTM-v0.98-Daemon" true) := by
  have hspec := up_metric_spec {} "!a1b2c3d4" [("Battery", .vint 87)]
    { node_id := "!a1b2c3d4", contact_name := "Base" } (by decide)
  exact ⟨hspec.1, hspec.2.1⟩

end MeshMetrics

/-! ## The encrypted-roster pipeline (C7, C8) -/

namespace MeshMetrics

/-! ### Bytes -/

/-- A byte, the unit of all cryptographic data in the roster pipeline. -/
abbrev Byte := Fin 256

/-- Byte from a natural number (reduced mod 256). -/
def bOf (n : Nat) : Byte := ⟨n % 256, Nat.mod_lt _ (by norm_num)⟩

/-- Bitwise xor of bytes. -/
def bxor (a b : Byte) : Byte :=
  ⟨a.val ^^^ b.val, by
    have h : a.val ^^^ b.val < 2 ^ 8 :=
      Nat.xor_lt_two_pow (by omega) (by omega)
    omega⟩

theorem bxor_comm (a b : Byte) : bxor a b = bxor b a :=
  Fin.ext (Nat.xor_comm _ _)

theorem bxor_assoc (a b c : Byte) : bxor (bxor a b) c = bxor a (bxor b c) :=
  Fin.ext (Nat.xor_assoc _ _ _)

theorem bxor_self (a : Byte) : bxor a a = 0 :=
  Fin.ext (Nat.xor_self _)

theorem bxor_zero (a : Byte) : bxor a 0 = a :=
  Fin.ext (Nat.xor_zero _)

theorem zero_bxor (a : Byte) : bxor 0 a = a :=
  Fin.ext (Nat.zero_xor _)

theorem bxor_cancel_right (a k : Byte) : bxor (bxor a k) k = a := by
  rw [bxor_assoc, bxor_self, bxor_zero]

instance : Std.Associative bxor := ⟨bxor_assoc⟩

instance : Std.Commutative bxor := ⟨bxor_comm⟩

/-! ### The AES S-box and its inverse (FIPS-197 figure 7 / figure 14) -/

def sboxTable : List Nat := [
  99, 124, 119, 123, 242, 107, 111, 197, 48, 1, 103, 43, 254, 215, 171, 118,
  202, 130, 201, 125, 250, 89, 71, 240, 173, 212, 162, 175, 156, 164, 114, 192,
  183, 253, 147, 38, 54, 63, 247, 204, 52, 165, 229, 241, 113, 216, 49, 21,
  4, 199, 35, 195, 24, 150, 5, 154, 7, 18, 128, 226, 235, 39, 178, 117,
  9, 131, 44, 26, 27, 110, 90, 160, 82, 59, 214, 179, 41, 227, 47, 132,
  83, 209, 0, 237, 32, 252, 177, 91, 106, 203, 190, 57, 74, 76, 88, 207,
  208, 239, 170, 251, 67, 77, 51, 133, 69, 249, 2, 127, 80, 60, 159, 168,
  81, 163, 64, 143, 146, 157, 56, 245, 188, 182, 218, 33, 16, 255, 243, 210,
  205, 12, 19, 236, 95, 151, 68, 23, 196, 167, 126, 61, 100, 93, 25, 115,
  96, 129, 79, 220, 34, 42, 144, 136, 70, 238, 184, 20, 222, 94, 11, 219,
  224, 50, 58, 10, 73, 6, 36, 92, 194, 211, 172, 98, 145, 149, 228, 121,
  231, 200, 55, 109, 141, 213, 78, 169, 108, 86, 244, 234, 101, 122, 174, 8,
  186, 120, 37, 46, 28, 166, 180, 198, 232, 221, 116, 31, 75, 189, 139, 138,
  112, 62, 181, 102, 72, 3, 246, 14, 97, 53, 87, 185, 134, 193, 29, 158,
  225, 248, 152, 17, 105, 217, 142, 148, 155, 30, 135, 233, 206, 85, 40, 223,
  140, 161, 137, 13, 191, 230, 66, 104, 65, 153, 45, 15, 176, 84, 187, 22
]

def invSboxTable : List Nat := [
  82, 9, 106, 213, 48, 54, 165, 56, 191, 64, 163, 158, 129, 243, 215, 251,
  124, 227, 57, 130, 155, 47, 255, 135, 52, 142, 67, 68, 196, 222, 233, 203,
  84, 123, 148, 50, 166, 194, 35, 61, 238, 76, 149, 11, 66, 250, 195, 78,
  8, 46, 161, 102, 40, 217, 36, 178, 118, 91, 162, 73, 109, 139, 209, 37,
  114, 248, 246, 100, 134, 104, 152, 22, 212, 164, 92, 204, 93, 101, 182, 146,
  108, 112, 72, 80, 253, 237, 185, 218, 94, 21, 70, 87, 167, 141, 157, 132,
  144, 216, 171, 0, 140, 188, 211, 10, 247, 228, 88, 5, 184, 179, 69, 6,
  208, 44, 30, 143, 202, 63, 15, 2, 193, 175, 189, 3, 1, 19, 138, 107,
  58, 145, 17, 65, 79, 103, 220, 234, 151, 242, 207, 206, 240, 180, 230, 115,
  150, 172, 116, 34, 231, 173, 53, 133, 226, 249, 55, 232, 28, 117, 223, 110,
  71, 241, 26, 113, 29, 41, 197, 137, 111, 183, 98, 14, 170, 24, 190, 27,
  252, 86, 62, 75, 198, 210, 121, 32, 154, 219, 192, 254, 120, 205, 90, 244,
  31, 221, 168, 51, 136, 7, 199, 49, 177, 18, 16, 89, 39, 128, 236, 95,
  96, 81, 127, 169, 25, 181, 74, 13, 45, 229, 122, 159, 147, 201, 156, 239,
  160, 224, 59, 77, 174, 42, 245, 176, 200, 235, 187, 60, 131, 83, 153, 97,
  23, 43, 4, 126, 186, 119, 214, 38, 225, 105, 20, 99, 85, 33, 12, 125
]

/-- The AES S-box as a byte function. -/
def sbox (b : Byte) : Byte := bOf (sboxTable.getD b.val 0)

/-- The inverse AES S-box. -/
def invSbox (b : Byte) : Byte := bOf (invSboxTable.getD b.val 0)

set_option maxRecDepth 4096 in
theorem invSbox_sbox : ∀ b : Byte, invSbox (sbox b) = b := by decide

/-! ### The AES state (a 4×4 column-major byte matrix, FIPS-197 §3.4) -/

structure AESState where
  b0 : Byte
  b1 : Byte
  b2 : Byte
  b3 : Byte
  b4 : Byte
  b5 : Byte
  b6 : Byte
  b7 : Byte
  b8 : Byte
  b9 : Byte
  b10 : Byte
  b11 : Byte
  b12 : Byte
  b13 : Byte
  b14 : Byte
  b15 : Byte
deriving DecidableEq, Repr

/-- Componentwise xor of states (`AddRoundKey`, and the CBC chaining xor). -/
def xorState (s k : AESState) : AESState :=
  ⟨bxor s.b0 k.b0, bxor s.b1 k.b1, bxor s.b2 k.b2, bxor s.b3 k.b3,
   bxor s.b4 k.b4, bxor s.b5 k.b5, bxor s.b6 k.b6, bxor s.b7 k.b7,
   bxor s.b8 k.b8, bxor s.b9 k.b9, bxor s.b10 k.b10, bxor s.b11 k.b11,
   bxor s.b12 k.b12, bxor s.b13 k.b13, bxor s.b14 k.b14, bxor s.b15 k.b15⟩

theorem xorState_cancel (s k : AESState) : xorState (xorState s k) k = s := by
  cases s
  simp [xorState, bxor_cancel_right]

/-- `SubBytes`. -/
def subBytes (s : AESState) : AESState :=
  ⟨sbox s.b0, sbox s.b1, sbox s.b2, sbox s.b3, sbox s.b4, sbox s.b5,
   sbox s.b6, sbox s.b7, sbox s.b8, sbox s.b9, sbox s.b10, sbox s.b11,
   sbox s.b12, sbox s.b13, sbox s.b14, sbox s.b15⟩

/-- `InvSubBytes`. -/
def invSubBytes (s : AESState) : AESState :=
  ⟨invSbox s.b0, invSbox s.b1, invSbox s.b2, invSbox s.b3, invSbox s.b4,
   invSbox s.b5, invSbox s.b6, invSbox s.b7, invSbox s.b8, invSbox s.b9,
   invSbox s.b10, invSbox s.b11, invSbox s.b12, invSbox s.b13, invSbox s.b14,
   invSbox s.b15⟩

theorem invSubBytes_subBytes (s : AESState) : invSubBytes (subBytes s) = s := by
  cases s
  simp [subBytes, invSubBytes, invSbox_sbox]

/-- `ShiftRows`: row `r` of the state rotates left by `r`
(byte `4c + r` receives byte `4((c+r) mod 4) + r`). -/
def shiftRows (s : AESState) : AESState :=
  ⟨s.b0, s.b5, s.b10, s.b15, s.b4, s.b9, s.b14, s.b3,
   s.b8, s.b13, s.b2, s.b7, s.b12, s.b1, s.b6, s.b11⟩

/-- `InvShiftRows`: row `r` rotates right by `r`. -/
def invShiftRows (s : AESState) : AESState :=
  ⟨s.b0, s.b13, s.b10, s.b7, s.b4, s.b1, s.b14, s.b11,
   s.b8, s.b5, s.b2, s.b15, s.b12, s.b9, s.b6, s.b3⟩

theorem invShiftRows_shiftRows (s : AESState) : invShiftRows (shiftRows s) = s := rfl

/-! ### `MixColumns` (GF(2^8) arithmetic, FIPS-197 §5.1.3 / §5.3.3) -/

/-- `xtime` (multiplication by `x` in GF(2^8)) on the raw value. -/
def xtimeN (a : Nat) : Nat := if a < 128 then 2 * a else (2 * a) ^^^ 0x11B

set_option maxRecDepth 4096 in
theorem xtimeN_lt : ∀ a < 256, xtimeN a < 256 := by decide

/-- Multiplication by `x = 0x02` in GF(2^8). -/
def xtime (a : Byte) : Byte := ⟨xtimeN a.val, xtimeN_lt a.val a.isLt⟩

theorem two_mul_xor (a b : Nat) : 2 * (a ^^^ b) = 2 * a ^^^ 2 * b := by
  apply Nat.eq_of_testBit_eq
  intro i
  cases i with
  | zero =>
    simp [Nat.testBit_xor, Nat.mul_mod_right]
  | succ j =>
    have h2 : ∀ x : Nat, 2 * x / 2 = x := fun x => by omega
    rw [Nat.testBit_xor, Nat.testBit_add_one, Nat.testBit_add_one, Nat.testBit_add_one,
      h2, h2, h2, Nat.testBit_xor]

theorem testBit7_iff {x : Nat} (hx : x < 256) : x.testBit 7 = true ↔ 128 ≤ x := by
  rw [Nat.testBit_to_div_mod]
  have h7 : (2 : Nat) ^ 7 = 128 := rfl
  rw [h7]
  simp only [decide_eq_true_eq]
  omega

theorem xtimeN_bxor : ∀ a < 256, ∀ b < 256,
    xtimeN (a ^^^ b) = xtimeN a ^^^ xtimeN b := by
  intro a ha b hb
  have hxlt : a ^^^ b < 256 := by
    have h : a ^^^ b < 2 ^ 8 := Nat.xor_lt_two_pow (by omega) (by omega)
    omega
  unfold xtimeN
  by_cases h1 : a < 128 <;> by_cases h2 : b < 128
  · have hab : a ^^^ b < 128 := by
      have h : a ^^^ b < 2 ^ 7 := Nat.xor_lt_two_pow (by omega) (by omega)
      omega
    rw [if_pos hab, if_pos h1, if_pos h2, two_mul_xor]
  · have hta : a.testBit 7 = false := Nat.testBit_lt_two_pow (by omega)
    have htb : b.testBit 7 = true := (testBit7_iff hb).mpr (by omega)
    have htx : (a ^^^ b).testBit 7 = true := by
      rw [Nat.testBit_xor, hta, htb]
      rfl
    have hge : 128 ≤ a ^^^ b := by
      have := Nat.testBit_implies_ge htx
      omega
    rw [if_neg (by omega), if_pos h1, if_neg h2, two_mul_xor, Nat.xor_assoc]
  · have hta : a.testBit 7 = true := (testBit7_iff ha).mpr (by omega)
    have htb : b.testBit 7 = false := Nat.testBit_lt_two_pow (by omega)
    have htx : (a ^^^ b).testBit 7 = true := by
      rw [Nat.testBit_xor, hta, htb]
      rfl
    have hge : 128 ≤ a ^^^ b := by
      have := Nat.testBit_implies_ge htx
      omega
    rw [if_neg (by omega), if_neg h1, if_pos h2, two_mul_xor, Nat.xor_assoc,
      Nat.xor_comm (2 * b), ← Nat.xor_assoc]
  · have hta : a.testBit 7 = true := (testBit7_iff ha).mpr (by omega)
    have htb : b.testBit 7 = true := (testBit7_iff hb).mpr (by omega)
    have htx : (a ^^^ b).testBit 7 = false := by
      rw [Nat.testBit_xor, hta, htb]
      rfl
    have hab : a ^^^ b < 128 := by
      by_contra hc
      rw [(testBit7_iff hxlt).mpr (by omega)] at htx
      exact absurd htx (by decide)
    rw [if_pos hab, if_neg h1, if_neg h2, two_mul_xor, Nat.xor_assoc,
      Nat.xor_comm (2 * b) 283, ← Nat.xor_assoc 283 283, Nat.xor_self, Nat.zero_xor]

/-- `xtime` is linear over byte xor — the backbone of the
`InvMixColumns ∘ MixColumns = id` proof. -/
theorem xtime_bxor (a b : Byte) : xtime (bxor a b) = bxor (xtime a) (xtime b) :=
  Fin.ext (xtimeN_bxor a.val a.isLt b.val b.isLt)

/-- Multiplication by `0x03`. -/
def gmul3 (a : Byte) : Byte := bxor (xtime a) a

/-- Multiplication by `0x09`. -/
def gmul9 (a : Byte) : Byte := bxor (xtime (xtime (xtime a))) a

/-- Multiplication by `0x0b`. -/
def gmul11 (a : Byte) : Byte := bxor (bxor (xtime (xtime (xtime a))) (xtime a)) a

/-- Multiplication by `0x0d`. -/
def gmul13 (a : Byte) : Byte := bxor (bxor (xtime (xtime (xtime a))) (xtime (xtime a))) a

/-- Multiplication by `0x0e`. -/
def gmul14 (a : Byte) : Byte :=
  bxor (bxor (xtime (xtime (xtime a))) (xtime (xtime a))) (xtime a)

theorem gmul3_bxor (a b : Byte) : gmul3 (bxor a b) = bxor (gmul3 a) (gmul3 b) := by
  unfold gmul3
  rw [xtime_bxor]
  ac_rfl

theorem gmul9_bxor (a b : Byte) : gmul9 (bxor a b) = bxor (gmul9 a) (gmul9 b) := by
  unfold gmul9
  simp only [xtime_bxor]
  ac_rfl

theorem gmul11_bxor (a b : Byte) : gmul11 (bxor a b) = bxor (gmul11 a) (gmul11 b) := by
  unfold gmul11
  simp only [xtime_bxor]
  ac_rfl

theorem gmul13_bxor (a b : Byte) : gmul13 (bxor a b) = bxor (gmul13 a) (gmul13 b) := by
  unfold gmul13
  simp only [xtime_bxor]
  ac_rfl

theorem gmul14_bxor (a b : Byte) : gmul14 (bxor a b) = bxor (gmul14 a) (gmul14 b) := by
  unfold gmul14
  simp only [xtime_bxor]
  ac_rfl

/-- One column of the AES state. -/
structure Col where
  y0 : Byte
  y1 : Byte
  y2 : Byte
  y3 : Byte
deriving DecidableEq, Repr

/-- Componentwise xor of columns. -/
def colXor (u v : Col) : Col :=
  ⟨bxor u.y0 v.y0, bxor u.y1 v.y1, bxor u.y2 v.y2, bxor u.y3 v.y3⟩

/-- The `MixColumns` matrix `[2 3 1 1; 1 2 3 1; 1 1 2 3; 3 1 1 2]`
applied to one column. -/
def mixCol (c : Col) : Col :=
  ⟨bxor (bxor (bxor (xtime c.y0) (gmul3 c.y1)) c.y2) c.y3,
   bxor (bxor (bxor c.y0 (xtime c.y1)) (gmul3 c.y2)) c.y3,
   bxor (bxor (bxor c.y0 c.y1) (xtime c.y2)) (gmul3 c.y3),
   bxor (bxor (bxor (gmul3 c.y0) c.y1) c.y2) (xtime c.y3)⟩

/-- The `InvMixColumns` matrix `[14 11 13 9; 9 14 11 13; 13 9 14 11; 11 13 9 14]`. -/
def invMixCol (c : Col) : Col :=
  ⟨bxor (bxor (bxor (gmul14 c.y0) (gmul11 c.y1)) (gmul13 c.y2)) (gmul9 c.y3),
   bxor (bxor (bxor (gmul9 c.y0) (gmul14 c.y1)) (gmul11 c.y2)) (gmul13 c.y3),
   bxor (bxor (bxor (gmul13 c.y0) (gmul9 c.y1)) (gmul14 c.y2)) (gmul11 c.y3),
   bxor (bxor (bxor (gmul11 c.y0) (gmul13 c.y1)) (gmul9 c.y2)) (gmul14 c.y3)⟩

theorem mixCol_colXor (u v : Col) :
    mixCol (colXor u v) = colXor (mixCol u) (mixCol v) := by
  cases u; cases v
  simp only [mixCol, colXor, xtime_bxor, gmul3_bxor, Col.mk.injEq]
  refine ⟨?_, ?_, ?_, ?_⟩ <;> ac_rfl

theorem invMixCol_colXor (u v : Col) :
    invMixCol (colXor u v) = colXor (invMixCol u) (invMixCol v) := by
  cases u; cases v
  simp only [invMixCol, colXor, gmul9_bxor, gmul11_bxor, gmul13_bxor, gmul14_bxor,
    Col.mk.injEq]
  refine ⟨?_, ?_, ?_, ?_⟩ <;> ac_rfl

set_option maxRecDepth 4096 in
theorem invMix_mix_basis0 : ∀ a : Byte, invMixCol (mixCol ⟨a, 0, 0, 0⟩) = ⟨a, 0, 0, 0⟩ := by
  decide

set_option maxRecDepth 4096 in
theorem invMix_mix_basis1 : ∀ a : Byte, invMixCol (mixCol ⟨0, a, 0, 0⟩) = ⟨0, a, 0, 0⟩ := by
  decide

set_option maxRecDepth 4096 in
theorem invMix_mix_basis2 : ∀ a : Byte, invMixCol (mixCol ⟨0, 0, a, 0⟩) = ⟨0, 0, a, 0⟩ := by
  decide

set_option maxRecDepth 4096 in
theorem invMix_mix_basis3 : ∀ a : Byte, invMixCol (mixCol ⟨0, 0, 0, a⟩) = ⟨0, 0, 0, a⟩ := by
  decide

/-- `InvMixColumns` inverts `MixColumns` on one column: both maps are
linear over xor, and the composite fixes the four byte "axes". -/
theorem invMixCol_mixCol (c : Col) : invMixCol (mixCol c) = c := by
  obtain ⟨a, b, u, d⟩ := c
  have hdecomp : (⟨a, b, u, d⟩ : Col) =
      colXor (colXor (colXor ⟨a, 0, 0, 0⟩ ⟨0, b, 0, 0⟩) ⟨0, 0, u, 0⟩) ⟨0, 0, 0, d⟩ := by
    simp [colXor, bxor_zero, zero_bxor]
  rw [hdecomp, mixCol_colXor, mixCol_colXor, mixCol_colXor,
    invMixCol_colXor, invMixCol_colXor, invMixCol_colXor,
    invMix_mix_basis0, invMix_mix_basis1, invMix_mix_basis2, invMix_mix_basis3,
    ← hdecomp]

/-- `MixColumns` on the full state. -/
def mixColumns (s : AESState) : AESState :=
  let c0 := mixCol ⟨s.b0, s.b1, s.b2, s.b3⟩
  let c1 := mixCol ⟨s.b4, s.b5, s.b6, s.b7⟩
  let c2 := mixCol ⟨s.b8, s.b9, s.b10, s.b11⟩
  let c3 := mixCol ⟨s.b12, s.b13, s.b14, s.b15⟩
  ⟨c0.y0, c0.y1, c0.y2, c0.y3, c1.y0, c1.y1, c1.y2, c1.y3,
   c2.y0, c2.y1, c2.y2, c2.y3, c3.y0, c3.y1, c3.y2, c3.y3⟩

/-- `InvMixColumns` on the full state. -/
def invMixColumns (s : AESState) : AESState :=
  let c0 := invMixCol ⟨s.b0, s.b1, s.b2, s.b3⟩
  let c1 := invMixCol ⟨s.b4, s.b5, s.b6, s.b7⟩
  let c2 := invMixCol ⟨s.b8, s.b9, s.b10, s.b11⟩
  let c3 := invMixCol ⟨s.b12, s.b13, s.b14, s.b15⟩
  ⟨c0.y0, c0.y1, c0.y2, c0.y3, c1.y0, c1.y1, c1.y2, c1.y3,
   c2.y0, c2.y1, c2.y2, c2.y3, c3.y0, c3.y1, c3.y2, c3.y3⟩

theorem colEta (c : Col) : (⟨c.y0, c.y1, c.y2, c.y3⟩ : Col) = c := rfl

theorem invMixColumns_mixColumns (s : AESState) : invMixColumns (mixColumns s) = s := by
  cases s
  simp only [mixColumns, invMixColumns, colEta, invMixCol_mixCol]

/-! ### AES-256 key expansion (FIPS-197 §5.2; `Nk = 8`, `Nr = 14`) -/

/-- The zero column. -/
def zeroCol : Col := ⟨0, 0, 0, 0⟩

/-- `SubWord`. -/
def subWord (w : Col) : Col := ⟨sbox w.y0, sbox w.y1, sbox w.y2, sbox w.y3⟩

/-- `RotWord`. -/
def rotWord (w : Col) : Col := ⟨w.y1, w.y2, w.y3, w.y0⟩

/-- The round constants `Rcon[i] = x^(i-1)` (AES-256 uses `i = 1..7`). -/
def rconByte (i : Nat) : Byte := bOf ([1, 2, 4, 8, 16, 32, 64].getD (i - 1) 0)

/-- One step of the key-expansion recurrence producing word `ws.length`. -/
def nextWord (ws : List Col) : Col :=
  let i := ws.length
  let prev := ws.getD (i - 1) zeroCol
  let w8 := ws.getD (i - 8) zeroCol
  let t :=
    if i % 8 = 0 then
      let r := subWord (rotWord prev)
      ⟨bxor r.y0 (rconByte (i / 8)), r.y1, r.y2, r.y3⟩
    else if i % 8 = 4 then subWord prev
    else prev
  colXor w8 t

/-- Iterate the recurrence `k` more times. -/
def expandWords (ws : List Col) : Nat → List Col
  | 0 => ws
  | k + 1 => expandWords (ws ++ [nextWord ws]) k

/-- The first 8 words, straight from the 32-byte key. -/
def keyColsInit (key : List Byte) : List Col :=
  (List.range 8).map (fun i =>
    ⟨key.getD (4 * i) 0, key.getD (4 * i + 1) 0,
     key.getD (4 * i + 2) 0, key.getD (4 * i + 3) 0⟩)

/-- Round key `j` assembled from words `4j .. 4j+3`. -/
def roundKeyOf (ws : List Col) (j : Nat) : AESState :=
  let w0 := ws.getD (4 * j) zeroCol
  let w1 := ws.getD (4 * j + 1) zeroCol
  let w2 := ws.getD (4 * j + 2) zeroCol
  let w3 := ws.getD (4 * j + 3) zeroCol
  ⟨w0.y0, w0.y1, w0.y2, w0.y3, w1.y0, w1.y1, w1.y2, w1.y3,
   w2.y0, w2.y1, w2.y2, w2.y3, w3.y0, w3.y1, w3.y2, w3.y3⟩

/-- The 15 round keys of AES-256 (60 words). -/
def expandKey (key : List Byte) : List AESState :=
  let ws := expandWords (keyColsInit key) 52
  (List.range 15).map (roundKeyOf ws)

/-! ### The block cipher and its inverse -/

/-- One full encryption round: `SubBytes`, `ShiftRows`, `MixColumns`,
`AddRoundKey`. -/
def encRound (k : AESState) (s : AESState) : AESState :=
  xorState (mixColumns (shiftRows (subBytes s))) k

/-- The inverse of `encRound k`. -/
def decRound (k : AESState) (s : AESState) : AESState :=
  invSubBytes (invShiftRows (invMixColumns (xorState s k)))

theorem decRound_encRound (k s : AESState) : decRound k (encRound k s) = s := by
  unfold decRound encRound
  rw [xorState_cancel, invMixColumns_mixColumns, invShiftRows_shiftRows,
    invSubBytes_subBytes]

/-- The middle and final rounds of the cipher: the last round key marks
the `MixColumns`-free final round. -/
def aesEncRounds : List AESState → AESState → AESState
  | [], s => s
  | [klast], s => xorState (shiftRows (subBytes s)) klast
  | k :: k2 :: rest, s => aesEncRounds (k2 :: rest) (encRound k s)

/-- The matching inverse rounds. -/
def aesDecRounds : List AESState → AESState → AESState
  | [], c => c
  | [klast], c => invSubBytes (invShiftRows (xorState c klast))
  | k :: k2 :: rest, c => decRound k (aesDecRounds (k2 :: rest) c)

theorem aesDecRounds_aesEncRounds (ks : List AESState) :
    ∀ s, aesDecRounds ks (aesEncRounds ks s) = s := by
  induction ks with
  | nil => intro s; rfl
  | cons k rest ih =>
    intro s
    cases rest with
    | nil =>
      show invSubBytes (invShiftRows (xorState (xorState (shiftRows (subBytes s)) k) k)) = s
      rw [xorState_cancel, invShiftRows_shiftRows, invSubBytes_subBytes]
    | cons k2 rest2 =>
      show decRound k (aesDecRounds (k2 :: rest2) (aesEncRounds (k2 :: rest2) (encRound k s))) = s
      rw [ih (encRound k s), decRound_encRound]

/-- AES block encryption under a round-key list (initial `AddRoundKey`,
then the rounds). -/
def aesEncBlock (rks : List AESState) (s : AESState) : AESState :=
  match rks with
  | [] => s
  | k0 :: rest => aesEncRounds rest (xorState s k0)

/-- AES block decryption, the exact inverse sequence. -/
def aesDecBlock (rks : List AESState) (c : AESState) : AESState :=
  match rks with
  | [] => c
  | k0 :: rest => xorState (aesDecRounds rest c) k0

theorem aesDecBlock_aesEncBlock (rks : List AESState) (s : AESState) :
    aesDecBlock rks (aesEncBlock rks s) = s := by
  cases rks with
  | nil => rfl
  | cons k0 rest =>
    show xorState (aesDecRounds rest (aesEncRounds rest (xorState s k0))) k0 = s
    rw [aesDecRounds_aesEncRounds, xorState_cancel]

/-! ### Blocks of 16 bytes -/

/-- A 16-byte block as a state (byte `i` of the block is state byte `i`,
FIPS-197 §3.4). -/
def stateOfBytes (l : List Byte) : AESState :=
  ⟨l.getD 0 0, l.getD 1 0, l.getD 2 0, l.getD 3 0, l.getD 4 0, l.getD 5 0,
   l.getD 6 0, l.getD 7 0, l.getD 8 0, l.getD 9 0, l.getD 10 0, l.getD 11 0,
   l.getD 12 0, l.getD 13 0, l.getD 14 0, l.getD 15 0⟩

/-- A state back to its 16 bytes. -/
def bytesOfState (s : AESState) : List Byte :=
  [s.b0, s.b1, s.b2, s.b3, s.b4, s.b5, s.b6, s.b7,
   s.b8, s.b9, s.b10, s.b11, s.b12, s.b13, s.b14, s.b15]

/-- Split a byte string into 16-byte blocks; `none` when the length is
not a multiple of the block size (the `cryptography` package raises
`ValueError` there). -/
def chunkBlocks (l : List Byte) : Option (List AESState) :=
  if h0 : l.length = 0 then some []
  else if h1 : l.length < 16 then none
  else
    match chunkBlocks (l.drop 16) with
    | none => none
    | some rest => some (stateOfBytes (l.take 16) :: rest)
termination_by l.length
decreasing_by simp [List.length_drop]; omega

/-- Concatenate blocks back to bytes. -/
def blocksToBytes : List AESState → List Byte
  | [] => []
  | s :: rest => bytesOfState s ++ blocksToBytes rest

theorem length_succ_cons {α : Type} (l : List α) (k : Nat) (h : l.length = k + 1) :
    ∃ a t, l = a :: t ∧ t.length = k := by
  cases l with
  | nil => simp at h
  | cons a t => exact ⟨a, t, rfl, by simpa using h⟩

theorem bytesOf_stateOf (l : List Byte) (h : l.length = 16) :
    bytesOfState (stateOfBytes l) = l := by
  obtain ⟨a0, l, rfl, hx1⟩ := length_succ_cons l 15 h
  obtain ⟨a1, l, rfl, hx2⟩ := length_succ_cons l 14 hx1
  obtain ⟨a2, l, rfl, hx3⟩ := length_succ_cons l 13 hx2
  obtain ⟨a3, l, rfl, hx4⟩ := length_succ_cons l 12 hx3
  obtain ⟨a4, l, rfl, hx5⟩ := length_succ_cons l 11 hx4
  obtain ⟨a5, l, rfl, hx6⟩ := length_succ_cons l 10 hx5
  obtain ⟨a6, l, rfl, hx7⟩ := length_succ_cons l 9 hx6
  obtain ⟨a7, l, rfl, hx8⟩ := length_succ_cons l 8 hx7
  obtain ⟨a8, l, rfl, hx9⟩ := length_succ_cons l 7 hx8
  obtain ⟨a9, l, rfl, hx10⟩ := length_succ_cons l 6 hx9
  obtain ⟨a10, l, rfl, hx11⟩ := length_succ_cons l 5 hx10
  obtain ⟨a11, l, rfl, hx12⟩ := length_succ_cons l 4 hx11
  obtain ⟨a12, l, rfl, hx13⟩ := length_succ_cons l 3 hx12
  obtain ⟨a13, l, rfl, hx14⟩ := length_succ_cons l 2 hx13
  obtain ⟨a14, l, rfl, hx15⟩ := length_succ_cons l 1 hx14
  obtain ⟨a15, l, rfl, hx16⟩ := length_succ_cons l 0 hx15
  have hnil : l = [] := List.eq_nil_of_length_eq_zero hx16
  subst hnil
  rfl

theorem chunkBlocks_of_mod : ∀ (n : Nat) (l : List Byte), l.length = n →
    l.length % 16 = 0 →
    ∃ bs, chunkBlocks l = some bs ∧ blocksToBytes bs = l := by
  intro n
  induction n using Nat.strong_induction_on with
  | _ n ih =>
    intro l hlen hmod
    by_cases h0 : l.length = 0
    · have hnil : l = [] := List.eq_nil_of_length_eq_zero h0
      subst hnil
      exact ⟨[], by rw [chunkBlocks]; simp, rfl⟩
    · have h16 : 16 ≤ l.length := by omega
      have hdlen : (l.drop 16).length = l.length - 16 := by simp
      obtain ⟨bs, hbs, hbytes⟩ := ih (l.length - 16) (by omega) (l.drop 16)
        hdlen (by omega)
      refine ⟨stateOfBytes (l.take 16) :: bs, ?_, ?_⟩
      · rw [chunkBlocks]
        simp only [h0, dif_neg, not_false_iff]
        have hn16 : ¬ l.length < 16 := by omega
        simp only [hn16, dif_neg, not_false_iff, hbs]
      · show bytesOfState (stateOfBytes (l.take 16)) ++ blocksToBytes bs = l
        rw [bytesOf_stateOf _ (by simp [List.length_take]; omega), hbytes,
          List.take_append_drop]

/-! ### CBC mode (the `modes.CBC` of the `cryptography` package) -/

/-- CBC encryption over blocks: `c_i = E(p_i ⊕ c_{i-1})` with `c_0 = iv`. -/
def cbcEncBlocks (rks : List AESState) (prev : AESState) : List AESState → List AESState
  | [] => []
  | p :: rest =>
    let c := aesEncBlock rks (xorState p prev)
    c :: cbcEncBlocks rks c rest

/-- CBC decryption over blocks: `p_i = D(c_i) ⊕ c_{i-1}`. -/
def cbcDecBlocks (rks : List AESState) (prev : AESState) : List AESState → List AESState
  | [] => []
  | c :: rest => xorState (aesDecBlock rks c) prev :: cbcDecBlocks rks c rest

theorem cbcDecBlocks_cbcEncBlocks (rks : List AESState) (ps : List AESState) :
    ∀ prev, cbcDecBlocks rks prev (cbcEncBlocks rks prev ps) = ps := by
  induction ps with
  | nil => intro prev; rfl
  | cons p rest ih =>
    intro prev
    show xorState (aesDecBlock rks (aesEncBlock rks (xorState p prev))) prev ::
        cbcDecBlocks rks (aesEncBlock rks (xorState p prev))
          (cbcEncBlocks rks (aesEncBlock rks (xorState p prev)) rest) = p :: rest
    rw [aesDecBlock_aesEncBlock, xorState_cancel, ih]

/-- Byte-level AES-256-CBC decryption, the behaviour of
`Cipher(algorithms.AES(key), modes.CBC(iv)).decryptor()` on full input:
`none` when the data is not block-aligned. -/
def cbcDecryptBytes (rks : List AESState) (iv : AESState) (data : List Byte) :
    Option (List Byte) :=
  match chunkBlocks data with
  | none => none
  | some cs => some (blocksToBytes (cbcDecBlocks rks iv cs))

/-- Byte-level AES-256-CBC encryption (the spec-modelled encryptor's
cipher step). -/
def cbcEncryptBytes (rks : List AESState) (iv : AESState) (data : List Byte) :
    Option (List Byte) :=
  match chunkBlocks data with
  | none => none
  | some ps => some (blocksToBytes (cbcEncBlocks rks iv ps))

/-! ### PKCS7 padding and the source's unpadding -/

/-- PKCS7 padding to the 16-byte block size: append `p = 16 - len mod 16`
copies of the byte `p` (`p ∈ 1..16`). -/
def pkcs7pad (data : List Byte) : List Byte :=
  let p := 16 - data.length % 16
  data ++ List.replicate p (bOf p)

/-- The source's hand-rolled unpadding (meshmetricsd.py lines 402-404):
read the last byte `p` and drop the last `p` bytes —
`decrypted_data[:-padding_length]`.  Python's negative-slice quirk is
kept: when `p = 0` the slice `[:-0]` is `[:0]`, the empty string; an
empty input raises `IndexError` (`none`). -/
def pyUnpad (data : List Byte) : Option (List Byte) :=
  match data.getLast? with
  | none => none
  | some p => some (if p.val = 0 then [] else data.take (data.length - p.val))

theorem pyUnpad_pkcs7pad (m : List Byte) : pyUnpad (pkcs7pad m) = some m := by
  set p := 16 - m.length % 16 with hp
  have hp1 : 1 ≤ p := by omega
  have hpk : pkcs7pad m = m ++ List.replicate p (bOf p) := rfl
  have hval : (bOf p).val = p := by
    show p % 256 = p
    omega
  have hlast : (pkcs7pad m).getLast? = some (bOf p) := by
    rw [hpk, List.getLast?_append, List.getLast?_replicate, if_neg (by omega)]
    rfl
  have hlen : (pkcs7pad m).length = m.length + p := by
    rw [hpk]
    simp
  unfold pyUnpad
  rw [hlast]
  show some (if (bOf p).val = 0 then [] else
    (pkcs7pad m).take ((pkcs7pad m).length - (bOf p).val)) = some m
  rw [hval, if_neg (by omega), hlen, hpk,
    show m.length + p - p = m.length by omega, List.take_left' rfl]

theorem pkcs7pad_mod (m : List Byte) : (pkcs7pad m).length % 16 = 0 := by
  unfold pkcs7pad
  simp only [List.length_append, List.length_replicate]
  omega

/-! ### SHA-256, HMAC and PBKDF2 (FIPS-180-4, RFC 2104, RFC 8018)

These are the key-derivation collaborators
(`PBKDF2HMAC(algorithm=SHA256, length=48, salt=salt, iterations=1000)`
in `decrypt_device_file`).  The round-trip theorem never inspects their
values — the same derived key and IV feed both directions — so they are
given as executable definitions without correctness lemmas. -/

def sha256K : List Nat := [
  1116352408, 1899447441, 3049323471, 3921009573, 961987163, 1508970993, 2453635748, 2870763221,
  3624381080, 310598401, 607225278, 1426881987, 1925078388, 2162078206, 2614888103, 3248222580,
  3835390401, 4022224774, 264347078, 604807628, 770255983, 1249150122, 1555081692, 1996064986,
  2554220882, 2821834349, 2952996808, 3210313671, 3336571891, 3584528711, 113926993, 338241895,
  666307205, 773529912, 1294757372, 1396182291, 1695183700, 1986661051, 2177026350, 2456956037,
  2730485921, 2820302411, 3259730800, 3345764771, 3516065817, 3600352804, 4094571909, 275423344,
  430227734, 506948616, 659060556, 883997877, 958139571, 1322822218, 1537002063, 1747873779,
  1955562222, 2024104815, 2227730452, 2361852424, 2428436474, 2756734187, 3204031479, 3329325298
]

def sha256H0 : List Nat := [1779033703, 3144134277, 1013904242, 2773480762,
  1359893119, 2600822924, 528734635, 1541459225]

/-- Truncation to a 32-bit word. -/
def w32 (n : Nat) : Nat := n % 4294967296

/-- 32-bit rotate right. -/
def rotr32 (n x : Nat) : Nat := w32 ((x >>> n) ||| (x <<< (32 - n)))

def smallSigma0 (x : Nat) : Nat := rotr32 7 x ^^^ rotr32 18 x ^^^ (x >>> 3)

def smallSigma1 (x : Nat) : Nat := rotr32 17 x ^^^ rotr32 19 x ^^^ (x >>> 10)

def bigSigma0 (x : Nat) : Nat := rotr32 2 x ^^^ rotr32 13 x ^^^ rotr32 22 x

def bigSigma1 (x : Nat) : Nat := rotr32 6 x ^^^ rotr32 11 x ^^^ rotr32 25 x

def chFn (x y z : Nat) : Nat := (x &&& y) ^^^ ((x ^^^ 0xFFFFFFFF) &&& z)

def majFn (x y z : Nat) : Nat := (x &&& y) ^^^ (x &&& z) ^^^ (y &&& z)

/-- Big-endian 32-bit words from bytes. -/
def wordsOfBytes : List Byte → List Nat
  | b0 :: b1 :: b2 :: b3 :: rest =>
    (b0.val * 16777216 + b1.val * 65536 + b2.val * 256 + b3.val) :: wordsOfBytes rest
  | _ => []

/-- Extend the 16 block words to 64 schedule words (`k` more to go). -/
def sha256Schedule (ws : List Nat) : Nat → List Nat
  | 0 => ws
  | k + 1 =>
    let i := ws.length
    let next := w32 (smallSigma1 (ws.getD (i - 2) 0) + ws.getD (i - 7) 0 +
      smallSigma0 (ws.getD (i - 15) 0) + ws.getD (i - 16) 0)
    sha256Schedule (ws ++ [next]) k

/-- One compression round; the state is `[a,b,c,d,e,f,g,h]`. -/
def sha256Round (st : List Nat) (kw : Nat × Nat) : List Nat :=
  let a := st.getD 0 0
  let b := st.getD 1 0
  let c := st.getD 2 0
  let d := st.getD 3 0
  let e := st.getD 4 0
  let f := st.getD 5 0
  let g := st.getD 6 0
  let h := st.getD 7 0
  let t1 := w32 (h + bigSigma1 e + chFn e f g + kw.1 + kw.2)
  let t2 := w32 (bigSigma0 a + majFn a b c)
  [w32 (t1 + t2), a, b, c, w32 (d + t1), e, f, g]

/-- Compress one 64-byte block into the running digest. -/
def sha256Compress (h : List Nat) (block : List Byte) : List Nat :=
  let ws := sha256Schedule (wordsOfBytes block) 48
  let st := (sha256K.zip ws).foldl sha256Round h
  List.zipWith (fun x y => w32 (x + y)) h st

/-- Big-endian length suffix of the padding. -/
def be64 (n : Nat) : List Byte :=
  [bOf (n >>> 56), bOf (n >>> 48), bOf (n >>> 40), bOf (n >>> 32),
   bOf (n >>> 24), bOf (n >>> 16), bOf (n >>> 8), bOf n]

/-- SHA-256 message padding: a `0x80` byte, zeros, and the 64-bit
bit length, to a multiple of 64 bytes. -/
def sha256Pad (msg : List Byte) : List Byte :=
  msg ++ [bOf 128] ++ List.replicate ((119 - msg.length % 64) % 64) 0 ++
    be64 (8 * msg.length)

/-- Fold the compression over all 64-byte blocks. -/
def sha256Blocks (h : List Nat) (msg : List Byte) : List Nat :=
  if h64 : msg.length < 64 then h
  else sha256Blocks (sha256Compress h (msg.take 64)) (msg.drop 64)
termination_by msg.length
decreasing_by simp [List.length_drop]; omega

/-- Big-endian bytes of a word. -/
def bytesOfWord (w : Nat) : List Byte :=
  [bOf (w >>> 24), bOf (w >>> 16), bOf (w >>> 8), bOf w]

def wordsToBytes : List Nat → List Byte
  | [] => []
  | w :: rest => bytesOfWord w ++ wordsToBytes rest

/-- SHA-256 of a byte string. -/
def sha256 (msg : List Byte) : List Byte :=
  wordsToBytes (sha256Blocks sha256H0 (sha256Pad msg))

/-- HMAC-SHA-256 (RFC 2104; block size 64). -/
def hmacSha256 (key msg : List Byte) : List Byte :=
  let k0 := if 64 < key.length then sha256 key else key
  let kp := k0 ++ List.replicate (64 - k0.length) 0
  sha256 (kp.map (fun b => bxor b (bOf 92)) ++
    sha256 (kp.map (fun b => bxor b (bOf 54)) ++ msg))

/-- Big-endian 32-bit block index of PBKDF2. -/
def be32 (n : Nat) : List Byte := [bOf (n >>> 24), bOf (n >>> 16), bOf (n >>> 8), bOf n]

/-- The iterated xor chain `U_2 .. U_c` of one PBKDF2 block. -/
def pbkdf2Iter (password u t : List Byte) : Nat → List Byte
  | 0 => t
  | k + 1 =>
    let u2 := hmacSha256 password u
    pbkdf2Iter password u2 (List.zipWith bxor t u2) k

/-- One output block `T_i` of PBKDF2. -/
def pbkdf2Block (password salt : List Byte) (iterations index : Nat) : List Byte :=
  let u1 := hmacSha256 password (salt ++ be32 index)
  pbkdf2Iter password u1 u1 (iterations - 1)

def joinBytes : List (List Byte) → List Byte
  | [] => []
  | b :: rest => b ++ joinBytes rest

/-- PBKDF2-HMAC-SHA-256 with derived-key length `dkLen`. -/
def pbkdf2HmacSha256 (password salt : List Byte) (iterations dkLen : Nat) : List Byte :=
  (joinBytes ((List.range ((dkLen + 31) / 32)).map
    (fun i => pbkdf2Block password salt iterations (i + 1)))).take dkLen

end MeshMetrics


namespace MeshMetrics

/-! ### Base64 (RFC 4648; decoding models Python's lenient
`base64.b64decode`, which first discards characters outside the
alphabet) -/

def b64AlphaTable : List Nat := [
  65, 66, 67, 68, 69, 70, 71, 72, 73, 74, 75, 76, 77, 78, 79, 80,
  81, 82, 83, 84, 85, 86, 87, 88, 89, 90, 97, 98, 99, 100, 101, 102,
  103, 104, 105, 106, 107, 108, 109, 110, 111, 112, 113, 114, 115, 116, 117, 118,
  119, 120, 121, 122, 48, 49, 50, 51, 52, 53, 54, 55, 56, 57, 43, 47
]

/-- The alphabet character of a 6-bit digit. -/
def b64Char (d : Nat) : Byte := bOf (b64AlphaTable.getD d 65)

/-- The `'='` padding byte. -/
def eqByte : Byte := bOf 61

def b64IsAlpha (b : Byte) : Bool := b64AlphaTable.contains b.val

/-- Digit of an alphabet byte (64 when the byte is not in the alphabet). -/
def b64Index (b : Byte) : Nat := b64AlphaTable.findIdx (fun v => v == b.val)

/-- Standard base64 encoding with `'='` padding (the spec-modelled
wrapping of the encrypted roster). -/
def b64encode : List Byte → List Byte
  | [] => []
  | [x] => [b64Char (x.val / 4), b64Char (x.val % 4 * 16), eqByte, eqByte]
  | [x, y] => [b64Char (x.val / 4), b64Char (x.val % 4 * 16 + y.val / 16),
               b64Char (y.val % 16 * 4), eqByte]
  | x :: y :: z :: rest =>
    b64Char (x.val / 4) :: b64Char (x.val % 4 * 16 + y.val / 16) ::
      b64Char (y.val % 16 * 4 + z.val / 64) :: b64Char (z.val % 64) :: b64encode rest

/-- Decode the filtered character stream in groups of four. -/
def b64decodeGroups : List Byte → Option (List Byte)
  | [] => some []
  | c1 :: c2 :: c3 :: c4 :: rest =>
    if c4 = eqByte then
      if rest ≠ [] then none
      else if c3 = eqByte then
        some [bOf (b64Index c1 * 4 + b64Index c2 / 16)]
      else
        some [bOf (b64Index c1 * 4 + b64Index c2 / 16),
              bOf (b64Index c2 % 16 * 16 + b64Index c3 / 4)]
    else
      match b64decodeGroups rest with
      | none => none
      | some tail =>
        some (bOf (b64Index c1 * 4 + b64Index c2 / 16) ::
              bOf (b64Index c2 % 16 * 16 + b64Index c3 / 4) ::
              bOf (b64Index c3 % 4 * 64 + b64Index c4) :: tail)
  | _ => none

/-- `base64.b64decode(data)` with the default `validate=False`:
characters outside the alphabet are discarded, then the groups are
decoded; `none` models the raised `binascii.Error`. -/
def b64decodePy (data : List Byte) : Option (List Byte) :=
  b64decodeGroups (data.filter (fun b => b64IsAlpha b || b == eqByte))

set_option maxRecDepth 2048 in
theorem b64Char_keeps : ∀ d < 64,
    (b64IsAlpha (b64Char d) || b64Char d == eqByte) = true := by decide

set_option maxRecDepth 2048 in
theorem b64Char_ne_eqByte : ∀ d < 64, ¬ b64Char d = eqByte := by decide

set_option maxRecDepth 4096 in
theorem b64Index_b64Char : ∀ d < 64, b64Index (b64Char d) = d := by decide

theorem b64encode_filter (l : List Byte) :
    (b64encode l).filter (fun b => b64IsAlpha b || b == eqByte) = b64encode l := by
  induction l using b64encode.induct with
  | case1 => rfl
  | case2 x =>
    have h1 := b64Char_keeps (x.val / 4) (by omega)
    have h2 := b64Char_keeps (x.val % 4 * 16) (by omega)
    simp [b64encode, List.filter, h1, h2]
  | case3 x y =>
    have h1 := b64Char_keeps (x.val / 4) (by omega)
    have h2 := b64Char_keeps (x.val % 4 * 16 + y.val / 16) (by omega)
    have h3 := b64Char_keeps (y.val % 16 * 4) (by omega)
    simp [b64encode, List.filter, h1, h2, h3]
  | case4 x y z rest ih =>
    have h1 := b64Char_keeps (x.val / 4) (by omega)
    have h2 := b64Char_keeps (x.val % 4 * 16 + y.val / 16) (by omega)
    have h3 := b64Char_keeps (y.val % 16 * 4 + z.val / 64) (by omega)
    have h4 := b64Char_keeps (z.val % 64) (by omega)
    simp [b64encode, List.filter, h1, h2, h3, h4, ih]

theorem b64decodeGroups_b64encode (l : List Byte) :
    b64decodeGroups (b64encode l) = some l := by
  induction l using b64encode.induct with
  | case1 => rfl
  | case2 x =>
    show b64decodeGroups [b64Char (x.val / 4), b64Char (x.val % 4 * 16), eqByte, eqByte]
      = some [x]
    rw [b64decodeGroups]
    simp only [if_pos rfl, ne_eq, not_true_eq_false, if_neg, reduceIte,
      b64Index_b64Char (x.val / 4) (by omega), b64Index_b64Char (x.val % 4 * 16) (by omega)]
    have hx : x.val / 4 * 4 + x.val % 4 * 16 / 16 = x.val := by omega
    rw [hx]
    have : bOf x.val = x := Fin.ext (by show x.val % 256 = x.val; omega)
    rw [this]
  | case3 x y =>
    show b64decodeGroups [b64Char (x.val / 4), b64Char (x.val % 4 * 16 + y.val / 16),
      b64Char (y.val % 16 * 4), eqByte] = some [x, y]
    rw [b64decodeGroups]
    rw [if_pos rfl, if_neg (by simp), if_neg (b64Char_ne_eqByte (y.val % 16 * 4) (by omega))]
    rw [b64Index_b64Char (x.val / 4) (by omega),
      b64Index_b64Char (x.val % 4 * 16 + y.val / 16) (by omega),
      b64Index_b64Char (y.val % 16 * 4) (by omega)]
    have hx : x.val / 4 * 4 + (x.val % 4 * 16 + y.val / 16) / 16 = x.val := by omega
    have hy : (x.val % 4 * 16 + y.val / 16) % 16 * 16 + y.val % 16 * 4 / 4 = y.val := by
      omega
    rw [hx, hy]
    have hx2 : bOf x.val = x := Fin.ext (by show x.val % 256 = x.val; omega)
    have hy2 : bOf y.val = y := Fin.ext (by show y.val % 256 = y.val; omega)
    rw [hx2, hy2]
  | case4 x y z rest ih =>
    show b64decodeGroups (b64Char (x.val / 4) :: b64Char (x.val % 4 * 16 + y.val / 16) ::
      b64Char (y.val % 16 * 4 + z.val / 64) :: b64Char (z.val % 64) :: b64encode rest)
      = some (x :: y :: z :: rest)
    rw [b64decodeGroups]
    rw [if_neg (b64Char_ne_eqByte (z.val % 64) (by omega)), ih]
    rw [b64Index_b64Char (x.val / 4) (by omega),
      b64Index_b64Char (x.val % 4 * 16 + y.val / 16) (by omega),
      b64Index_b64Char (y.val % 16 * 4 + z.val / 64) (by omega),
      b64Index_b64Char (z.val % 64) (by omega)]
    have hx : x.val / 4 * 4 + (x.val % 4 * 16 + y.val / 16) / 16 = x.val := by omega
    have hy : (x.val % 4 * 16 + y.val / 16) % 16 * 16 +
      (y.val % 16 * 4 + z.val / 64) / 4 = y.val := by omega
    have hz : (y.val % 16 * 4 + z.val / 64) % 4 * 64 + z.val % 64 = z.val := by omega
    rw [hx, hy, hz]
    have hx2 : bOf x.val = x := Fin.ext (by show x.val % 256 = x.val; omega)
    have hy2 : bOf y.val = y := Fin.ext (by show y.val % 256 = y.val; omega)
    have hz2 : bOf z.val = z := Fin.ext (by show z.val % 256 = z.val; omega)
    rw [hx2, hy2, hz2]

/-- Decoding inverts encoding (the wrapped-file path of
`decrypt_device_file`). -/
theorem b64decodePy_b64encode (l : List Byte) : b64decodePy (b64encode l) = some l := by
  unfold b64decodePy
  rw [b64encode_filter, b64decodeGroups_b64encode]

end MeshMetrics

namespace MeshMetrics

theorem chunkBlocks_blocksToBytes (bs : List AESState) :
    chunkBlocks (blocksToBytes bs) = some bs := by
  induction bs with
  | nil => rw [chunkBlocks]; simp [blocksToBytes]
  | cons s rest ih =>
    show chunkBlocks (bytesOfState s ++ blocksToBytes rest) = some (s :: rest)
    rw [chunkBlocks]
    have hlen : (bytesOfState s ++ blocksToBytes rest).length =
        16 + (blocksToBytes rest).length := by
      simp [bytesOfState]
      omega
    rw [dif_neg (by omega), dif_neg (by omega)]
    rw [List.drop_left' (show (bytesOfState s).length = 16 from rfl), ih]
    rw [List.take_left' (show (bytesOfState s).length = 16 from rfl)]
    rfl

/-! ### UTF-8 decoding (the final `.decode('utf-8')` of
`decrypt_device_file`; `none` models the raised `UnicodeDecodeError`) -/

/-- Decode one 2-byte sequence after lead byte `b`: the scalar value
and the remaining bytes. -/
def utf8Decode2 (b : Byte) : List Byte → Option (Nat × List Byte)
  | b2 :: rest2 =>
    if 128 ≤ b2.val ∧ b2.val < 192 then
      if 128 ≤ (b.val - 192) * 64 + (b2.val - 128) then
        some ((b.val - 192) * 64 + (b2.val - 128), rest2)
      else none
    else none
  | [] => none

/-- Decode one 3-byte sequence (overlongs and surrogates rejected). -/
def utf8Decode3 (b : Byte) : List Byte → Option (Nat × List Byte)
  | b2 :: b3 :: rest3 =>
    if (128 ≤ b2.val ∧ b2.val < 192) ∧ (128 ≤ b3.val ∧ b3.val < 192) then
      if 2048 ≤ (b.val - 224) * 4096 + (b2.val - 128) * 64 + (b3.val - 128) ∧
          ¬ (55296 ≤ (b.val - 224) * 4096 + (b2.val - 128) * 64 + (b3.val - 128) ∧
            (b.val - 224) * 4096 + (b2.val - 128) * 64 + (b3.val - 128) < 57344) then
        some ((b.val - 224) * 4096 + (b2.val - 128) * 64 + (b3.val - 128), rest3)
      else none
    else none
  | _ => none

/-- Decode one 4-byte sequence. -/
def utf8Decode4 (b : Byte) : List Byte → Option (Nat × List Byte)
  | b2 :: b3 :: b4 :: rest4 =>
    if (128 ≤ b2.val ∧ b2.val < 192) ∧ (128 ≤ b3.val ∧ b3.val < 192) ∧
        (128 ≤ b4.val ∧ b4.val < 192) then
      if 65536 ≤ (b.val - 240) * 262144 + (b2.val - 128) * 4096 + (b3.val - 128) * 64 +
            (b4.val - 128) ∧
          (b.val - 240) * 262144 + (b2.val - 128) * 4096 + (b3.val - 128) * 64 +
            (b4.val - 128) < 1114112 then
        some ((b.val - 240) * 262144 + (b2.val - 128) * 4096 + (b3.val - 128) * 64 +
          (b4.val - 128), rest4)
      else none
    else none
  | _ => none

/-- The decoding loop; the fuel argument (always instantiated with the
input length, which bounds the number of decoded characters) makes the
recursion structural. -/
def utf8DecodeAuxF : Nat → List Byte → Option (List Char)
  | _, [] => some []
  | 0, _ :: _ => none
  | fuel + 1, b :: rest =>
    if b.val < 128 then
      match utf8DecodeAuxF fuel rest with
      | none => none
      | some cs => some (Char.ofNat b.val :: cs)
    else if 192 ≤ b.val ∧ b.val < 224 then
      match utf8Decode2 b rest with
      | none => none
      | some (v, rem) =>
        match utf8DecodeAuxF fuel rem with
        | none => none
        | some cs => some (Char.ofNat v :: cs)
    else if 224 ≤ b.val ∧ b.val < 240 then
      match utf8Decode3 b rest with
      | none => none
      | some (v, rem) =>
        match utf8DecodeAuxF fuel rem with
        | none => none
        | some cs => some (Char.ofNat v :: cs)
    else if 240 ≤ b.val ∧ b.val < 245 then
      match utf8Decode4 b rest with
      | none => none
      | some (v, rem) =>
        match utf8DecodeAuxF fuel rem with
        | none => none
        | some cs => some (Char.ofNat v :: cs)
    else none

def utf8DecodeAux (l : List Byte) : Option (List Char) := utf8DecodeAuxF l.length l

/-- `bytes.decode('utf-8')`. -/
def utf8DecodePy (l : List Byte) : Option String :=
  match utf8DecodeAux l with
  | none => none
  | some cs => some ⟨cs⟩

/-! ### The roster decryption pipeline
(`MeshtasticTelemetryDaemon.decrypt_device_file`, meshmetricsd.py lines
364-406; `mesh_metrics.py` lines 69-111 are the identical collector
version) -/

/-- The fixed fallback salt `b'12345678'` (line 383). -/
def defaultSalt : List Byte := [49, 50, 51, 52, 53, 54, 55, 56]

/-- The OpenSSL magic marker `b'Salted__'` (line 379). -/
def saltedMagic : List Byte := [83, 97, 108, 116, 101, 100, 95, 95]

/-- The speculative base64 unwrap (lines 373-376): `b64decode` is
attempted, and on `binascii.Error` the raw bytes are kept
("File might not be base64 encoded"). -/
def unwrapB64 (fileContent : List Byte) : List Byte :=
  match b64decodePy fileContent with
  | some d => d
  | none => fileContent

/-- Key derivation, cipher and unpadding of `decrypt_device_file`
(lines 385-404) once the salt is known: PBKDF2-HMAC-SHA256, 1000
rounds, 48 bytes split as a 32-byte key and 16-byte IV; AES-256-CBC;
the hand-rolled last-byte unpadding. -/
def decryptBody (body password salt : List Byte) : Except String (List Byte) :=
  let key_iv := pbkdf2HmacSha256 password salt 1000 48
  let key := key_iv.take 32
  let iv := key_iv.drop 32
  match cbcDecryptBytes (expandKey key) (stateOfBytes iv) body with
  | none => .error "ValueError: The length of the provided data is not a multiple of the block length."
  | some dec =>
    match pyUnpad dec with
    | none => .error "IndexError: index out of range"
    | some m => .ok m

/-- `decrypt_device_file` up to (not including) the final UTF-8 decode,
over the file's bytes and the password's UTF-8 bytes: speculative
base64 unwrap, `Salted__` header split (lines 378-383, with the fixed
fallback salt), then `decryptBody`. -/
def decrypt_device_file_bytes (fileContent password : List Byte) :
    Except String (List Byte) :=
  let data := unwrapB64 fileContent
  let salt := if data.take 8 = saltedMagic then (data.drop 8).take 8 else defaultSalt
  let body := if data.take 8 = saltedMagic then data.drop 16 else data
  decryptBody body password salt

/-- The final `.decode('utf-8')` step. -/
def utf8Step (l : List Byte) : Except String String :=
  match utf8DecodePy l with
  | none => .error "UnicodeDecodeError: invalid byte sequence"
  | some s => .ok s

/-- `MeshtasticTelemetryDaemon.decrypt_device_file` in full. -/
def decrypt_device_file (fileContent password : List Byte) : Except String String :=
  match decrypt_device_file_bytes fileContent password with
  | .error e => .error e
  | .ok m => utf8Step m

/-- Modelled from the spec: the encryption that `decrypt_device_file`
documents and inverts (the repository ships no encryptor — rosters are
encrypted externally in the OpenSSL `Salted__` format).  Key and IV are
derived from the password and the 8-byte salt by 1000-round
PBKDF2-HMAC-SHA256 into 48 bytes (32-byte key, 16-byte IV); the
PKCS7-padded roster is encrypted with AES-256-CBC; the salt header
`Salted__` + salt is prepended and the whole file is base64-wrapped. -/
def encrypt_roster (roster password salt : List Byte) : Option (List Byte) :=
  let key_iv := pbkdf2HmacSha256 password salt 1000 48
  let key := key_iv.take 32
  let iv := key_iv.drop 32
  match cbcEncryptBytes (expandKey key) (stateOfBytes iv) (pkcs7pad roster) with
  | none => none
  | some ct => some (b64encode (saltedMagic ++ salt ++ ct))

end MeshMetrics

namespace MeshMetrics

theorem unwrapB64_b64encode (l : List Byte) : unwrapB64 (b64encode l) = l := by
  unfold unwrapB64
  rw [b64decodePy_b64encode]

theorem decryptBody_inverts (roster password salt : List Byte)
    (bs : List AESState) (hbytes : blocksToBytes bs = pkcs7pad roster) :
    decryptBody
      (blocksToBytes (cbcEncBlocks
        (expandKey ((pbkdf2HmacSha256 password salt 1000 48).take 32))
        (stateOfBytes ((pbkdf2HmacSha256 password salt 1000 48).drop 32)) bs))
      password salt = .ok roster := by
  unfold decryptBody cbcDecryptBytes
  rw [chunkBlocks_blocksToBytes]
  simp only []
  rw [cbcDecBlocks_cbcEncBlocks, hbytes, pyUnpad_pkcs7pad]

theorem decrypt_encrypt_general (roster password salt : List Byte)
    (hs : salt.length = 8) :
    ∃ file, encrypt_roster roster password salt = some file ∧
      decrypt_device_file_bytes file password = .ok roster ∧
      decrypt_device_file file password = utf8Step roster := by
  obtain ⟨bs, hbs, hbytes⟩ :=
    chunkBlocks_of_mod (pkcs7pad roster).length (pkcs7pad roster) rfl (pkcs7pad_mod roster)
  set CT := blocksToBytes (cbcEncBlocks
    (expandKey ((pbkdf2HmacSha256 password salt 1000 48).take 32))
    (stateOfBytes ((pbkdf2HmacSha256 password salt 1000 48).drop 32)) bs) with hCT
  have henc : encrypt_roster roster password salt
      = some (b64encode (saltedMagic ++ salt ++ CT)) := by
    unfold encrypt_roster cbcEncryptBytes
    rw [hbs, hCT]
  have htake8 : (saltedMagic ++ salt ++ CT).take 8 = saltedMagic := by
    rw [List.append_assoc]
    exact List.take_left' rfl
  have hdroptake : ((saltedMagic ++ salt ++ CT).drop 8).take 8 = salt := by
    rw [List.append_assoc, List.drop_left' (show saltedMagic.length = 8 from rfl)]
    exact List.take_left' hs
  have hdrop16 : (saltedMagic ++ salt ++ CT).drop 16 = CT := by
    refine List.drop_left' ?_
    simp [saltedMagic, hs]
  have hdec : decrypt_device_file_bytes (b64encode (saltedMagic ++ salt ++ CT)) password
      = .ok roster := by
    simp only [decrypt_device_file_bytes, unwrapB64_b64encode, htake8, hdroptake,
      hdrop16, eq_self_iff_true, if_true]
    rw [hCT]
    exact decryptBody_inverts roster password salt bs hbytes
  refine ⟨b64encode (saltedMagic ++ salt ++ CT), henc, hdec, ?_⟩
  unfold decrypt_device_file
  rw [hdec]

/-! ### UTF-8 encoding (to state the round trip over roster text) -/

/-- UTF-8 encoding of one scalar value. -/
def utf8EncodeChar (c : Char) : List Byte :=
  if c.toNat < 128 then [bOf c.toNat]
  else if c.toNat < 2048 then [bOf (192 + c.toNat / 64), bOf (128 + c.toNat % 64)]
  else if c.toNat < 65536 then
    [bOf (224 + c.toNat / 4096), bOf (128 + c.toNat / 64 % 64), bOf (128 + c.toNat % 64)]
  else
    [bOf (240 + c.toNat / 262144), bOf (128 + c.toNat / 4096 % 64),
     bOf (128 + c.toNat / 64 % 64), bOf (128 + c.toNat % 64)]

/-- UTF-8 encoding of a character sequence. -/
def utf8Encode : List Char → List Byte
  | [] => []
  | c :: rest => utf8EncodeChar c ++ utf8Encode rest

theorem utf8EncodeChar_length_pos (c : Char) : 1 ≤ (utf8EncodeChar c).length := by
  unfold utf8EncodeChar
  split_ifs <;> simp

theorem utf8DecodeAuxF_encode : ∀ (cs : List Char) (fuel : Nat),
    (utf8Encode cs).length ≤ fuel →
    utf8DecodeAuxF fuel (utf8Encode cs) = some cs := by
  intro cs
  induction cs with
  | nil =>
    intro fuel _
    cases fuel <;> rfl
  | cons c rest ih =>
    intro fuel hfuel
    have hvalid : c.toNat < 55296 ∨ (57344 ≤ c.toNat ∧ c.toNat < 1114112) := c.valid
    have hcl := utf8EncodeChar_length_pos c
    have hlen : (utf8Encode (c :: rest)).length =
        (utf8EncodeChar c).length + (utf8Encode rest).length := by
      show (utf8EncodeChar c ++ utf8Encode rest).length = _
      simp
    obtain ⟨f, rfl⟩ : ∃ f, fuel = f + 1 := by
      cases fuel with
      | zero => omega
      | succ f => exact ⟨f, rfl⟩
    have hrest : (utf8Encode rest).length ≤ f := by omega
    have hih := ih f hrest
    show utf8DecodeAuxF (f + 1) (utf8EncodeChar c ++ utf8Encode rest) = some (c :: rest)
    by_cases h1 : c.toNat < 128
    · have he : utf8EncodeChar c = [bOf c.toNat] := by
        unfold utf8EncodeChar
        rw [if_pos h1]
      rw [he]
      show utf8DecodeAuxF (f + 1) (bOf c.toNat :: utf8Encode rest) = some (c :: rest)
      rw [utf8DecodeAuxF]
      have hb : (bOf c.toNat).val = c.toNat := by
        show c.toNat % 256 = c.toNat
        omega
      rw [hb, if_pos h1, hih, Char.ofNat_toNat]
    · by_cases h2 : c.toNat < 2048
      · have he : utf8EncodeChar c = [bOf (192 + c.toNat / 64), bOf (128 + c.toNat % 64)] := by
          unfold utf8EncodeChar
          rw [if_neg h1, if_pos h2]
        have hb1 : (bOf (192 + c.toNat / 64)).val = 192 + c.toNat / 64 := by
          show (192 + c.toNat / 64) % 256 = 192 + c.toNat / 64
          omega
        have hb2 : (bOf (128 + c.toNat % 64)).val = 128 + c.toNat % 64 := by
          show (128 + c.toNat % 64) % 256 = 128 + c.toNat % 64
          omega
        have hstep : utf8Decode2 (bOf (192 + c.toNat / 64))
            (bOf (128 + c.toNat % 64) :: utf8Encode rest) = some (c.toNat, utf8Encode rest) := by
          rw [utf8Decode2, hb1, hb2]
          rw [show (192 + c.toNat / 64 - 192) * 64 + (128 + c.toNat % 64 - 128) = c.toNat by omega]
          rw [if_pos (by omega : 128 ≤ 128 + c.toNat % 64 ∧ 128 + c.toNat % 64 < 192)]
          rw [if_pos (by omega : 128 ≤ c.toNat)]
        rw [he]
        show utf8DecodeAuxF (f + 1)
          (bOf (192 + c.toNat / 64) :: bOf (128 + c.toNat % 64) :: utf8Encode rest)
          = some (c :: rest)
        rw [utf8DecodeAuxF, hb1]
        rw [if_neg (by omega),
          if_pos (by omega : 192 ≤ 192 + c.toNat / 64 ∧ 192 + c.toNat / 64 < 224), hstep]
        simp only []
        rw [hih, Char.ofNat_toNat]
      · by_cases h3 : c.toNat < 65536
        · have he : utf8EncodeChar c = [bOf (224 + c.toNat / 4096),
              bOf (128 + c.toNat / 64 % 64), bOf (128 + c.toNat % 64)] := by
            unfold utf8EncodeChar
            rw [if_neg h1, if_neg h2, if_pos h3]
          have hb1 : (bOf (224 + c.toNat / 4096)).val = 224 + c.toNat / 4096 := by
            show (224 + c.toNat / 4096) % 256 = 224 + c.toNat / 4096
            omega
          have hb2 : (bOf (128 + c.toNat / 64 % 64)).val = 128 + c.toNat / 64 % 64 := by
            show (128 + c.toNat / 64 % 64) % 256 = 128 + c.toNat / 64 % 64
            omega
          have hb3 : (bOf (128 + c.toNat % 64)).val = 128 + c.toNat % 64 := by
            show (128 + c.toNat % 64) % 256 = 128 + c.toNat % 64
            omega
          have hstep : utf8Decode3 (bOf (224 + c.toNat / 4096))
              (bOf (128 + c.toNat / 64 % 64) :: bOf (128 + c.toNat % 64) :: utf8Encode rest)
              = some (c.toNat, utf8Encode rest) := by
            rw [utf8Decode3, hb1, hb2, hb3]
            rw [show (224 + c.toNat / 4096 - 224) * 4096 + (128 + c.toNat / 64 % 64 - 128) * 64 +
              (128 + c.toNat % 64 - 128) = c.toNat by omega]
            rw [if_pos (by omega : (128 ≤ 128 + c.toNat / 64 % 64 ∧ 128 + c.toNat / 64 % 64 < 192) ∧
              (128 ≤ 128 + c.toNat % 64 ∧ 128 + c.toNat % 64 < 192))]
            rw [if_pos (show 2048 ≤ c.toNat ∧ ¬ (55296 ≤ c.toNat ∧ c.toNat < 57344) by omega)]
          rw [he]
          show utf8DecodeAuxF (f + 1)
            (bOf (224 + c.toNat / 4096) :: bOf (128 + c.toNat / 64 % 64) ::
              bOf (128 + c.toNat % 64) :: utf8Encode rest) = some (c :: rest)
          rw [utf8DecodeAuxF, hb1]
          rw [if_neg (by omega), if_neg (by omega),
            if_pos (by omega : 224 ≤ 224 + c.toNat / 4096 ∧ 224 + c.toNat / 4096 < 240), hstep]
          simp only []
          rw [hih, Char.ofNat_toNat]
        · have h4 : c.toNat < 1114112 := by omega
          have he : utf8EncodeChar c = [bOf (240 + c.toNat / 262144),
              bOf (128 + c.toNat / 4096 % 64), bOf (128 + c.toNat / 64 % 64),
              bOf (128 + c.toNat % 64)] := by
            unfold utf8EncodeChar
            rw [if_neg h1, if_neg h2, if_neg h3]
          have hb1 : (bOf (240 + c.toNat / 262144)).val = 240 + c.toNat / 262144 := by
            show (240 + c.toNat / 262144) % 256 = 240 + c.toNat / 262144
            omega
          have hb2 : (bOf (128 + c.toNat / 4096 % 64)).val = 128 + c.toNat / 4096 % 64 := by
            show (128 + c.toNat / 4096 % 64) % 256 = 128 + c.toNat / 4096 % 64
            omega
          have hb3 : (bOf (128 + c.toNat / 64 % 64)).val = 128 + c.toNat / 64 % 64 := by
            show (128 + c.toNat / 64 % 64) % 256 = 128 + c.toNat / 64 % 64
            omega
          have hb4 : (bOf (128 + c.toNat % 64)).val = 128 + c.toNat % 64 := by
            show (128 + c.toNat % 64) % 256 = 128 + c.toNat % 64
            omega
          have hstep : utf8Decode4 (bOf (240 + c.toNat / 262144))
              (bOf (128 + c.toNat / 4096 % 64) :: bOf (128 + c.toNat / 64 % 64) ::
                bOf (128 + c.toNat % 64) :: utf8Encode rest)
              = some (c.toNat, utf8Encode rest) := by
            rw [utf8Decode4, hb1, hb2, hb3, hb4]
            rw [show (240 + c.toNat / 262144 - 240) * 262144 +
              (128 + c.toNat / 4096 % 64 - 128) * 4096 + (128 + c.toNat / 64 % 64 - 128) * 64 +
              (128 + c.toNat % 64 - 128) = c.toNat by omega]
            rw [if_pos (by omega :
              (128 ≤ 128 + c.toNat / 4096 % 64 ∧ 128 + c.toNat / 4096 % 64 < 192) ∧
              (128 ≤ 128 + c.toNat / 64 % 64 ∧ 128 + c.toNat / 64 % 64 < 192) ∧
              (128 ≤ 128 + c.toNat % 64 ∧ 128 + c.toNat % 64 < 192))]
            rw [if_pos (show 65536 ≤ c.toNat ∧ c.toNat < 1114112 by omega)]
          rw [he]
          show utf8DecodeAuxF (f + 1)
            (bOf (240 + c.toNat / 262144) :: bOf (128 + c.toNat / 4096 % 64) ::
              bOf (128 + c.toNat / 64 % 64) :: bOf (128 + c.toNat % 64) :: utf8Encode rest)
            = some (c :: rest)
          rw [utf8DecodeAuxF, hb1]
          rw [if_neg (by omega), if_neg (by omega), if_neg (by omega),
            if_pos (by omega : 240 ≤ 240 + c.toNat / 262144 ∧ 240 + c.toNat / 262144 < 245),
            hstep]
          simp only []
          rw [hih, Char.ofNat_toNat]

theorem utf8DecodeAux_utf8Encode (cs : List Char) :
    utf8DecodeAux (utf8Encode cs) = some cs :=
  utf8DecodeAuxF_encode cs (utf8Encode cs).length (Nat.le_refl _)

/-- Decoding the UTF-8 encoding of a string gives the string back. -/
theorem utf8Step_utf8Encode (s : String) : utf8Step (utf8Encode s.data) = .ok s := by
  unfold utf8Step utf8DecodePy
  rw [utf8DecodeAux_utf8Encode]

/-- C8: encrypting a CSV roster with the documented scheme — key and IV
derived from the password and the 8-byte salt by 1000-round
PBKDF2-HMAC-SHA256 into 48 bytes (32-byte key, 16-byte IV),
AES-256-CBC over the PKCS7-padded roster, the `Salted__` magic marker
and salt prepended, and the file base64-wrapped — then decrypting via
`decrypt_device_file` with the same password reproduces the original
roster exactly: byte-for-byte before the final UTF-8 decode, and
text-for-text when the roster is given as text. -/
theorem roster_roundtrip :
    (∀ (roster password : List Byte) (s0 s1 s2 s3 s4 s5 s6 s7 : Byte),
      ∃ file,
        encrypt_roster roster password [s0, s1, s2, s3, s4, s5, s6, s7] = some file ∧
        decrypt_device_file_bytes file password = .ok roster) ∧
    (∀ (text : String) (password : List Byte) (s0 s1 s2 s3 s4 s5 s6 s7 : Byte),
      ∃ file,
        encrypt_roster (utf8Encode text.data) password [s0, s1, s2, s3, s4, s5, s6, s7]
          = some file ∧
        decrypt_device_file file password = .ok text) := by
  constructor
  · intro roster password s0 s1 s2 s3 s4 s5 s6 s7
    obtain ⟨file, h1, h2, _⟩ := decrypt_encrypt_general roster password
      [s0, s1, s2, s3, s4, s5, s6, s7] rfl
    exact ⟨file, h1, h2⟩
  · intro text password s0 s1 s2 s3 s4 s5 s6 s7
    obtain ⟨file, h1, _, h3⟩ := decrypt_encrypt_general (utf8Encode text.data) password
      [s0, s1, s2, s3, s4, s5, s6, s7] rfl
    exact ⟨file, h1, h3.trans (utf8Step_utf8Encode text)⟩

end MeshMetrics
